import Mathlib

/-!
# Liverpool GFX command processor (orbital-qemu)

A shallow embedding of `hw/ps4/liverpool/lvp_gc_gfx.c`: ring configuration, the
PM4 packet decoder, the type-3 opcode dispatcher and its four handlers, and the
ring consumer; and of the microcode upload of `hw/ps4/liverpool_gc.c`.

Conventions of the embedding
* C `uint32_t` / `uint64_t` values are natural numbers; every operation that can
  wrap in C is written with an explicit `% 2 ^ 32`.
* A call either returns (`Res.ok`), dies on a failed `assert` (`Res.abort`),
  leaves the defined behaviour of C (`Res.fault`: indexing outside an array,
  copying through a NULL pointer), or needs more nesting than the fuel given to
  the model (`Res.fuel`).
* Guest memory is a byte map per address-space context.  A host pointer
  returned by the mapper is a direct window onto guest memory, so reading
  `packet[k]` reads the four bytes at `addr + 4 * k`, little-endian.
* Every call of the mapper is appended to a log, oldest first.
-/

namespace Orbital

/-- Outcome of running a piece of the C code. -/
inductive Res (α : Type) where
  | ok (a : α)
  | abort
  | fault
  | fuel

/-- Sequencing of C statements: the first failure ends the run. -/
def Res.bind {α β : Type} (r : Res α) (f : α → Res β) : Res β :=
  match r with
  | .ok a => f a
  | .abort => .abort
  | .fault => .fault
  | .fuel => .fuel

/-- A host pointer handed out by `address_space_map`: a window onto the guest
memory of address-space context `as` starting at guest address `addr`. -/
structure hostptr where
  as : Nat
  addr : Nat
deriving DecidableEq, Repr

/-- One call of the mapper, with the arguments in the order the code passes them. -/
inductive MapEvent where
  | map (as addr len : Nat)
  | unmap (as : Nat) (buffer : Option hostptr) (addr len : Nat)
deriving DecidableEq, Repr

/-- Modelled from the spec: `lvp_gc_gart.h` and the mapper `address_space_map`
are not part of the sources ("map a guest physical range for a given
address-space context into a host-accessible buffer, bounded by a requested
length").  `map as addr len` is `none` when the mapper returns a NULL pointer
and `some l` when it returns a window of actual length `l`. -/
structure gart_state_t where
  map : Nat → Nat → Nat → Option Nat

/-- Modelled from the spec: `gfx_ring_t` is declared in `lvp_gc_gfx.h`, which is
not part of the sources; the fields are the ones `lvp_gc_gfx.c` uses.
`mapped_base = none` is the NULL pointer. -/
structure gfx_ring_t where
  base : Nat
  size : Nat
  mapped_base : Option hostptr
  mapped_size : Nat
  rptr : Nat
  wptr : Nat

/-- Modelled from the spec: `gfx_state_t` is declared in `lvp_gc_gfx.h`, which is
not part of the sources; the fields are the ones `lvp_gc_gfx.c` uses (`gart`,
`mmio`, `vgt_event_initiator`, `cp_rb[2]`).  The embedding adds the environment
the code acts on: guest memory `mem as addr` (one byte per address) and the
`log` of mapper calls. -/
structure gfx_state_t where
  gart : gart_state_t
  mmio : Nat → Nat
  vgt_event_initiator : Nat
  cp_rb : Nat → gfx_ring_t
  mem : Nat → Nat → Nat
  log : List MapEvent

/-! ## Missing headers: `macros.h`, `pm4.h` -/

/-- Modelled from the spec: `EXTRACT` of `hw/ps4/macros.h` (not part of the
sources) takes the bit field `[hi:lo]` of a header dword. -/
def EXTRACT (value : Nat) (field : Nat × Nat) : Nat :=
  (value >>> field.2) % 2 ^ (field.1 - field.2 + 1)

/-- Modelled from the spec: "Header dword, bits [31:30] = type tag". -/
def PM4_PACKET_TYPE : Nat × Nat := (31, 30)
/-- Modelled from the spec: "Type 0: bits[15:0] = base register index". -/
def PM4_TYPE0_HEADER_REG : Nat × Nat := (15, 0)
/-- Modelled from the spec: "Type 0: bits[29:16] = word-count-minus-one". -/
def PM4_TYPE0_HEADER_COUNT : Nat × Nat := (29, 16)
/-- Modelled from the spec: "Type 3: bit[0] = predicate flag". -/
def PM4_TYPE3_HEADER_PRED : Nat × Nat := (0, 0)
/-- Modelled from the spec: "Type 3: bit[1] = shader/engine-type flag". -/
def PM4_TYPE3_HEADER_SHTYPE : Nat × Nat := (1, 1)
/-- Modelled from the spec: "Type 3: bits[15:8] = opcode". -/
def PM4_TYPE3_HEADER_ITOP : Nat × Nat := (15, 8)
/-- Modelled from the spec: "Type 3: bits[29:16] = word-count-minus-one". -/
def PM4_TYPE3_HEADER_COUNT : Nat × Nat := (29, 16)

/-- Modelled from the spec: type tags "0,1,2,3" of `pm4.h`. -/
def PM4_PACKET_TYPE0 : Nat := 0
/-- Modelled from the spec: type tags "0,1,2,3" of `pm4.h`. -/
def PM4_PACKET_TYPE1 : Nat := 1
/-- Modelled from the spec: type tags "0,1,2,3" of `pm4.h`. -/
def PM4_PACKET_TYPE2 : Nat := 2
/-- Modelled from the spec: type tags "0,1,2,3" of `pm4.h`. -/
def PM4_PACKET_TYPE3 : Nat := 3

/-- Modelled from the spec: the four `PM4_IT_*` opcodes of `pm4.h` (not part of
the sources).  The spec names them without giving their numbers, so they are a
parameter; they are pairwise distinct, as the labels of one C `switch` are. -/
structure pm4_it where
  PM4_IT_INDIRECT_BUFFER : Nat
  PM4_IT_EVENT_WRITE_EOP : Nat
  PM4_IT_SET_CONFIG_REG : Nat
  PM4_IT_SET_CONTEXT_REG : Nat
  distinct : [PM4_IT_INDIRECT_BUFFER, PM4_IT_EVENT_WRITE_EOP,
    PM4_IT_SET_CONFIG_REG, PM4_IT_SET_CONTEXT_REG].Nodup

/-- The opcode numbers of the AMD PM4 packet definitions, used for concrete runs. -/
def pm4_it_amd : pm4_it :=
  ⟨0x3F, 0x47, 0x68, 0x69, by decide⟩

/-! ## Memory access through host pointers -/

/-- The byte of guest memory at `addr` in context `as`. -/
def ld8 (mem : Nat → Nat → Nat) (as addr : Nat) : Nat := mem as addr % 256

/-- `p[k]` for a `uint32_t *p`: four bytes, little-endian. -/
def ld32 (mem : Nat → Nat → Nat) (p : hostptr) (k : Nat) : Nat :=
  ld8 mem p.as (p.addr + 4 * k)
    + 2 ^ 8 * ld8 mem p.as (p.addr + 4 * k + 1)
    + 2 ^ 16 * ld8 mem p.as (p.addr + 4 * k + 2)
    + 2 ^ 24 * ld8 mem p.as (p.addr + 4 * k + 3)

/-- `&p[i]` for a `uint32_t *p`. -/
def hostptr.index (p : hostptr) (i : Nat) : hostptr := ⟨p.as, p.addr + 4 * i⟩

/-- `memcpy(dst, &data, size)` for an integer `data` held little-endian in host
memory: byte `j < size` of the window receives bits `[8j+7:8j]` of `data`. -/
def memcpy (mem : Nat → Nat → Nat) (dst : hostptr) (data size : Nat) : Nat → Nat → Nat :=
  fun as a =>
    if as = dst.as ∧ dst.addr ≤ a ∧ a < dst.addr + size then
      (data >>> (8 * (a - dst.addr))) % 256
    else mem as a

/-- `s->mmio[index] = value`. -/
def mmio_store (s : gfx_state_t) (index value : Nat) : gfx_state_t :=
  { s with mmio := fun j => if j = index then value else s.mmio j }

/-- `s->cp_rb[index] = rb`. -/
def cp_rb_store (s : gfx_state_t) (index : Nat) (rb : gfx_ring_t) : gfx_state_t :=
  { s with cp_rb := fun j => if j = index then rb else s.cp_rb j }

/-! ## `liverpool_gc_gfx_cp_set_ring_location` -/

/-- The C function `liverpool_gc_gfx_cp_set_ring_location`.  `index` is a C `int`.
The three leading asserts are checked in order; `s->cp_rb[index]` with a
negative index is an access outside the two-element array. -/
def liverpool_gc_gfx_cp_set_ring_location (s : gfx_state_t)
    (index : Int) (base size : Nat) : Res gfx_state_t :=
  if ¬ index ≤ 1 then .abort
  else if ¬ size ≠ 0 then .abort
  else if ¬ size % 8 = 0 then .abort
  else
    match index with
    | Int.negSucc _ => .fault
    | Int.ofNat ix =>
      let s1 : gfx_state_t :=
        match (s.cp_rb ix).mapped_base with
        | some _ =>
          { s with log := s.log ++ [MapEvent.unmap 0 (s.cp_rb ix).mapped_base
              (s.cp_rb ix).base (s.cp_rb ix).mapped_size] }
        | none => s
      let s2 := cp_rb_store s1 ix { s1.cp_rb ix with base := base, size := size }
      let s3 : gfx_state_t := { s2 with log := s2.log ++ [MapEvent.map 0 base size] }
      let r := s3.gart.map 0 base size
      let mapped_base : Option hostptr := r.map fun _ => ⟨0, base⟩
      let mapped_size : Nat := r.getD 0
      let s4 := cp_rb_store s3 ix
        { s3.cp_rb ix with mapped_base := mapped_base, mapped_size := mapped_size }
      if (s4.cp_rb ix).mapped_base.isNone then .abort
      else if ¬ (s4.cp_rb ix).mapped_size ≥ size then .abort
      else .ok s4

/-! ## Packet handlers -/

/-- The loop of `cp_handle_pm4_it_indirect_buffer`:
`while (i < ib_size) i += cp_handle_pm4(s, &mapped_ib[i]);`
with `h` the decoder and `n` a bound on the number of iterations. -/
def ib_loop (h : gfx_state_t → hostptr → Res (gfx_state_t × Nat))
    (mapped_ib : hostptr) (ib_size : Nat) : Nat → Nat → gfx_state_t → Res gfx_state_t
  | 0, i, s => if i < ib_size then .fuel else .ok s
  | n + 1, i, s =>
    if i < ib_size then
      (h s (mapped_ib.index i)).bind fun r =>
        ib_loop h mapped_ib ib_size n ((i + r.2) % 2 ^ 32) r.1
    else .ok s

/-- The C function `cp_handle_pm4_it_indirect_buffer`; `h` is `cp_handle_pm4`. -/
def cp_handle_pm4_it_indirect_buffer
    (h : gfx_state_t → hostptr → Res (gfx_state_t × Nat))
    (s : gfx_state_t) (packet : hostptr) : Res gfx_state_t :=
  let ib_base_lo := ld32 s.mem packet 1
  let ib_base_hi := ld32 s.mem packet 2
  let ib_base := ib_base_lo ||| ((ib_base_hi <<< 32) % 2 ^ 64)
  let ib_size := ld32 s.mem packet 3 &&& 0xFFFFF
  let vmid := (ld32 s.mem packet 3 >>> 24) &&& 0xF
  let s1 : gfx_state_t := { s with log := s.log ++ [MapEvent.map vmid ib_base ib_size] }
  match s1.gart.map vmid ib_base ib_size with
  | none => .abort
  | some mapped_size =>
    if ¬ mapped_size ≥ ib_size then .abort
    else
      let mapped_ib : hostptr := ⟨vmid, ib_base⟩
      (ib_loop h mapped_ib ib_size ib_size 0 s1).bind fun s2 =>
        .ok { s2 with log := s2.log ++
          [MapEvent.unmap vmid (some mapped_ib) ib_base mapped_size] }

/-- The `switch (data_cntl.data_sel)` of `cp_handle_pm4_it_event_write_eop`: the
pair `(size, data)` it leaves (`data` is not used when `size` is 0). -/
def eop_size_data (data_sel data_lo data_hi : Nat) : Nat × Nat :=
  match data_sel with
  | 0 => (0, 0)
  | 1 => (4, data_lo)
  | 2 => (8, ((data_hi <<< 32) % 2 ^ 64) ||| data_lo)
  | 3 => (8, 0)
  | 4 => (8, 0)
  | _ => (0, 0)

/-- The C function `cp_handle_pm4_it_event_write_eop`.  The bit-field unions
`event_cntl` and `data_cntl` are read with `EXTRACT`.  The
`switch (data_cntl.int_sel)` has only empty cases and is left out. -/
def cp_handle_pm4_it_event_write_eop (s : gfx_state_t) (packet : hostptr) :
    Res gfx_state_t :=
  let event_cntl := ld32 s.mem packet 1
  let addr_lo := ld32 s.mem packet 2
  let data_cntl := ld32 s.mem packet 3
  let data_lo := ld32 s.mem packet 4
  let data_hi := ld32 s.mem packet 5
  let sd : Nat × Nat := eop_size_data (EXTRACT data_cntl (31, 29)) data_lo data_hi
  let size := sd.1
  let data := sd.2
  let r : Res gfx_state_t :=
    if size ≠ 0 then
      let vmid := 0
      let addr := ((EXTRACT data_cntl (15, 0) <<< 32) % 2 ^ 64) ||| addr_lo
      let s1 : gfx_state_t := { s with log := s.log ++ [MapEvent.map vmid addr size] }
      match s1.gart.map vmid addr size with
      | none => .fault
      | some mapped_size =>
        let mapped_addr : hostptr := ⟨vmid, addr⟩
        .ok { s1 with
          mem := memcpy s1.mem mapped_addr data size
          log := s1.log ++ [MapEvent.unmap vmid (some mapped_addr) addr mapped_size] }
    else .ok s
  r.bind fun s2 =>
    .ok { s2 with vgt_event_initiator := EXTRACT event_cntl (5, 0) }

/-- The C function `cp_handle_pm4_it_set_config_reg`. -/
def cp_handle_pm4_it_set_config_reg (s : gfx_state_t) (packet : hostptr)
    (count : Nat) : Res gfx_state_t :=
  let reg_offset := ld32 s.mem packet 1 &&& 0xFFFF
  let reg_count := (count + 2 ^ 32 - 1) % 2 ^ 32
  if ¬ (reg_offset + reg_count) % 2 ^ 32 ≤ 0x1000 then .abort
  else
    .ok ((List.range reg_count).foldl
      (fun st i => mmio_store st (0x2000 + reg_offset)
        (ld32 st.mem packet ((2 + i) % 2 ^ 32))) s)

/-- The C function `cp_handle_pm4_it_set_context_reg`. -/
def cp_handle_pm4_it_set_context_reg (s : gfx_state_t) (packet : hostptr)
    (count : Nat) : Res gfx_state_t :=
  let reg_offset := ld32 s.mem packet 1 &&& 0xFFFF
  let reg_count := (count + 2 ^ 32 - 1) % 2 ^ 32
  if ¬ (reg_offset + reg_count) % 2 ^ 32 ≤ 0x400 then .abort
  else
    .ok ((List.range reg_count).foldl
      (fun st i => mmio_store st (0xA000 + reg_offset)
        (ld32 st.mem packet ((2 + i) % 2 ^ 32))) s)

/-! ## Packet types -/

/-- The C function `cp_handle_pm4_type0`. -/
def cp_handle_pm4_type0 (s : gfx_state_t) (packet : hostptr) :
    Res (gfx_state_t × Nat) :=
  let _reg := EXTRACT (ld32 s.mem packet 0) PM4_TYPE0_HEADER_REG
  let count := (EXTRACT (ld32 s.mem packet 0) PM4_TYPE0_HEADER_COUNT + 1) % 2 ^ 32
  .ok (s, (count + 1) % 2 ^ 32)

/-- The C function `cp_handle_pm4_type1`: `assert(0)`. -/
def cp_handle_pm4_type1 (_s : gfx_state_t) (_packet : hostptr) :
    Res (gfx_state_t × Nat) :=
  .abort

/-- The C function `cp_handle_pm4_type2`. -/
def cp_handle_pm4_type2 (s : gfx_state_t) (_packet : hostptr) :
    Res (gfx_state_t × Nat) :=
  .ok (s, 1)

/-- The C function `cp_handle_pm4_type3`; `h` is `cp_handle_pm4`, which the
indirect-buffer handler re-enters. -/
def cp_handle_pm4_type3 (ops : pm4_it)
    (h : gfx_state_t → hostptr → Res (gfx_state_t × Nat))
    (s : gfx_state_t) (packet : hostptr) : Res (gfx_state_t × Nat) :=
  let _pred := EXTRACT (ld32 s.mem packet 0) PM4_TYPE3_HEADER_PRED
  let _shtype := EXTRACT (ld32 s.mem packet 0) PM4_TYPE3_HEADER_SHTYPE
  let itop := EXTRACT (ld32 s.mem packet 0) PM4_TYPE3_HEADER_ITOP
  let count := (EXTRACT (ld32 s.mem packet 0) PM4_TYPE3_HEADER_COUNT + 1) % 2 ^ 32
  let r : Res gfx_state_t :=
    if itop = ops.PM4_IT_INDIRECT_BUFFER then
      cp_handle_pm4_it_indirect_buffer h s packet
    else if itop = ops.PM4_IT_EVENT_WRITE_EOP then
      cp_handle_pm4_it_event_write_eop s packet
    else if itop = ops.PM4_IT_SET_CONFIG_REG then
      cp_handle_pm4_it_set_config_reg s packet count
    else if itop = ops.PM4_IT_SET_CONTEXT_REG then
      cp_handle_pm4_it_set_context_reg s packet count
    else .ok s
  r.bind fun s1 => .ok (s1, (count + 1) % 2 ^ 32)

/-- The C function `cp_handle_pm4`.  The first argument bounds the nesting of
indirect buffers: with fuel `0` the call does not even start.
`trace_pm4_packet` only prints and is left out. -/
def cp_handle_pm4 : Nat → pm4_it → gfx_state_t → hostptr → Res (gfx_state_t × Nat)
  | 0, _, _, _ => .fuel
  | fuel + 1, ops, s, packet =>
    let type := EXTRACT (ld32 s.mem packet 0) PM4_PACKET_TYPE
    if type = PM4_PACKET_TYPE0 then cp_handle_pm4_type0 s packet
    else if type = PM4_PACKET_TYPE1 then cp_handle_pm4_type1 s packet
    else if type = PM4_PACKET_TYPE2 then cp_handle_pm4_type2 s packet
    else if type = PM4_PACKET_TYPE3 then
      cp_handle_pm4_type3 ops (fun s1 p => cp_handle_pm4 fuel ops s1 p) s packet
    else .ok (s, 1)

/-! ## Concrete devices -/

/-- Guest memory that holds the dwords `ws`, little-endian, from address `base`
of context `as`, and zero everywhere else. -/
def mem_of_dwords (as base : Nat) (ws : List Nat) : Nat → Nat → Nat :=
  fun a x =>
    if a = as ∧ base ≤ x ∧ x < base + 4 * ws.length then
      (ws.getD ((x - base) / 4) 0 >>> (8 * ((x - base) % 4))) % 256
    else 0

/-- A device with a zeroed register file, no ring mapped, an empty mapper log,
a mapper that always grants the requested length, and guest memory holding the
dwords `ws` at address `0x1000` of context 0. -/
def dev_with (ws : List Nat) : gfx_state_t :=
  { gart := ⟨fun _ _ l => some l⟩, mmio := fun _ => 0, vgt_event_initiator := 0,
    cp_rb := fun _ => ⟨0, 0, none, 0, 0, 0⟩, mem := mem_of_dwords 0 0x1000 ws, log := [] }

/-- Where `dev_with` puts its packet. -/
def pkt0 : hostptr := ⟨0, 0x1000⟩

/-- A device whose ring 0 already holds a mapping of 0x100 bytes at 0x4000. -/
def dev_mapped : gfx_state_t :=
  { dev_with [] with cp_rb := fun j =>
      if j = 0 then ⟨0x4000, 0x100, some ⟨0, 0x4000⟩, 0x100, 0, 0⟩ else ⟨0, 0, none, 0, 0, 0⟩ }

/-- The set-config-register packet of the end-to-end scenario: offset `0x10`,
values `0xAAAA`, `0xBBBB`, count-minus-one 2. -/
def dev_config : gfx_state_t := dev_with [0xC0026800, 0x10, 0xAAAA, 0xBBBB]

/-- The same packet with the set-context-register opcode. -/
def dev_context : gfx_state_t := dev_with [0xC0026900, 0x10, 0xAAAA, 0xBBBB]

/-- The event-write packet of the end-to-end scenario: event type `0x2F`, target
address `0x2000`, data selector 2, low `0x11111111`, high `0x22222222`. -/
def dev_eop : gfx_state_t :=
  dev_with [0xC0044700, 0x2F, 0x2000, 0x40000000, 0x11111111, 0x22222222]

/-! ## Fields of an event-write packet, as the interface names them -/

/-- Data selector of an event-write packet: word3 bits[31:29]. -/
def eop_data_sel (s : gfx_state_t) (packet : hostptr) : Nat :=
  (ld32 s.mem packet 3 >>> 29) % 8

/-- Target address of an event-write packet: `(word3 bits[15:0] << 32) | word2`. -/
def eop_addr (s : gfx_state_t) (packet : hostptr) : Nat :=
  ((ld32 s.mem packet 3 % 2 ^ 16) <<< 32) ||| ld32 s.mem packet 2

/-! ## Ring consumer -/

/-- The C function `cp_handle_ringbuffer`.  `index` is a `uint32_t`; indexing a
NULL `mapped_base` leaves defined behaviour. -/
def cp_handle_ringbuffer (fuel : Nat) (ops : pm4_it) (s : gfx_state_t) (rb : gfx_ring_t) :
    Res (gfx_state_t × Nat) :=
  let index := (rb.rptr >>> 2) % 2 ^ 32
  match rb.mapped_base with
  | none => .fault
  | some mapped_base => cp_handle_pm4 fuel ops s (mapped_base.index index)

/-- One statement `if (rb->rptr < rb->wptr) rb->rptr += cp_handle_ringbuffer(s, rb);`
of the loop body of `liverpool_gc_gfx_cp_thread`, for `rb = &s->cp_rb[ix]`.  The
read pointer is taken to be 32 bits wide, like the `index` computed from it. -/
def cp_thread_ring (fuel : Nat) (ops : pm4_it) (s : gfx_state_t) (ix : Nat) : Res gfx_state_t :=
  if (s.cp_rb ix).rptr < (s.cp_rb ix).wptr then
    (cp_handle_ringbuffer fuel ops s (s.cp_rb ix)).bind fun r =>
      .ok (cp_rb_store r.1 ix
        { r.1.cp_rb ix with rptr := ((r.1.cp_rb ix).rptr + r.2) % 2 ^ 32 })
  else .ok s

/-- One iteration of the `while (true)` body of the C function
`liverpool_gc_gfx_cp_thread`: ring 0, then ring 1.  `usleep` is left out. -/
def liverpool_gc_gfx_cp_thread (fuel : Nat) (ops : pm4_it) (s : gfx_state_t) : Res gfx_state_t :=
  (cp_thread_ring fuel ops s 0).bind fun s1 => cp_thread_ring fuel ops s1 1

/-! ## Reference runs of a packet stream -/

/-- Apply the decoder `h` to `n` packets in a row: the first at dword `i` of the
stream `mapped_ib`, each next one where the previous one ended.  Returns the
final state and the dword offset after the last packet. -/
def apply_packets (h : gfx_state_t → hostptr → Res (gfx_state_t × Nat))
    (mapped_ib : hostptr) : Nat → Nat → gfx_state_t → Res (gfx_state_t × Nat)
  | 0, i, s => .ok (s, i)
  | n + 1, i, s =>
    (h s (mapped_ib.index i)).bind fun r => apply_packets h mapped_ib n (i + r.2) r.1

/-- The loop `ib_loop` with its bookkeeping made visible: it returns the final
state, the final value of the cursor `i` and the number of packets dispatched
(`k` counts the dispatches so far). -/
def ib_run (h : gfx_state_t → hostptr → Res (gfx_state_t × Nat))
    (mapped_ib : hostptr) (ib_size : Nat) :
    Nat → Nat → Nat → gfx_state_t → Res (gfx_state_t × Nat × Nat)
  | 0, i, k, s => if i < ib_size then .fuel else .ok (s, i, k)
  | n + 1, i, k, s =>
    if i < ib_size then
      (h s (mapped_ib.index i)).bind fun r =>
        ib_run h mapped_ib ib_size n ((i + r.2) % 2 ^ 32) (k + 1) r.1
    else .ok (s, i, k)

/-- What no packet handler touches: the mapper and the ring descriptors. -/
def keeps_rings (s s' : gfx_state_t) : Prop := s'.gart = s.gart ∧ s'.cp_rb = s.cp_rb

/-! ## Fields of an indirect-buffer packet, as the interface names them -/

/-- Dword count of an indirect-buffer packet: `word3 & 0xFFFFF`. -/
def ib_count (s : gfx_state_t) (packet : hostptr) : Nat :=
  ld32 s.mem packet 3 &&& 0xFFFFF

/-- Address-space context of an indirect-buffer packet: word3 bits[27:24]. -/
def ib_vmid (s : gfx_state_t) (packet : hostptr) : Nat :=
  EXTRACT (ld32 s.mem packet 3) (27, 24)

/-- Guest address of an indirect-buffer packet: `word1 | (word2 << 32)`. -/
def ib_addr (s : gfx_state_t) (packet : hostptr) : Nat :=
  ld32 s.mem packet 1 ||| (ld32 s.mem packet 2 <<< 32)

/-- The device once the indirect-buffer handler has asked the mapper for its
view: the request is in the log. -/
def ib_entered (s : gfx_state_t) (packet : hostptr) : gfx_state_t :=
  { s with log := s.log ++ [MapEvent.map (ib_vmid s packet) (ib_addr s packet) (ib_count s packet)] }

/-- An indirect-buffer packet at `0x1000` whose sub-stream of 5 dwords at
`0x1010` (context 0) is a no-op packet followed by the set-config-register
packet of the end-to-end scenario. -/
def dev_ib : gfx_state_t :=
  dev_with [0xC0023F00, 0x1010, 0, 5, 0x80000000, 0xC0026800, 0x10, 0xAAAA, 0xBBBB]

/-- An indirect-buffer packet at `0x1000` with a dword count of 1: its sub-stream
at `0x1010` (context 0) is one no-op packet, `0x80000000`. -/
def dev_ib_one : gfx_state_t := dev_with [0xC0023F00, 0x1010, 0, 1, 0x80000000]

/-- The device `dev_ib_one` with one byte of guest memory changed: the byte at
`0x1013`, the top byte of the sub-stream's dword, is `0x40` instead of `0x80`. -/
def dev_ib_one_alt : gfx_state_t :=
  { dev_ib_one with
    mem := fun as a => if as = 0 ∧ a = 0x1013 then 0x40 else dev_ib_one.mem as a }

/-- A device whose ring 0 is configured over the `0x100` bytes at `0x1000` of
context 0, which hold the dwords `ws`; the read pointer is 0 and the write
pointer `wptr`.  Ring 1 is not configured. -/
def dev_ring0 (ws : List Nat) (wptr : Nat) : gfx_state_t :=
  { dev_with ws with cp_rb := fun j =>
      if j = 0 then ⟨0x1000, 0x100, some ⟨0, 0x1000⟩, 0x100, 0, wptr⟩
      else ⟨0, 0, none, 0, 0, 0⟩ }

/-- Ring contents for the ordering scenario: a no-op packet followed by the
event-write packet of `dev_eop` (7 dwords, 28 bytes). -/
def ring_nop_eop : List Nat :=
  [0x80000000, 0xC0044700, 0x2F, 0x2000, 0x40000000, 0x11111111, 0x22222222]

/-! ## `liverpool_gc.c`: microcode upload -/

/-- The firmware buffers of `LiverpoolGCState`, each declared `uint8_t[0x8000]`. -/
inductive ucode_buf where
  | cp_pfp_ucode
  | cp_ce_ucode
  | cp_me_ram
  | cp_mec_me1_ucode
  | cp_mec_me2_ucode
  | rlc_gpm_ucode
  | sdma0_ucode
  | sdma1_ucode
deriving DecidableEq, Repr

/-- The part of the C struct `LiverpoolGCState` that microcode upload acts on:
the register file `mmio` and the firmware buffers, one byte per offset. -/
structure LiverpoolGCState where
  mmio : Nat → Nat
  ucode : ucode_buf → Nat → Nat

/-- The register indices of `liverpool_gc_mmio.h`, which is not part of the
sources, that microcode upload uses.  They are a parameter; the seven address
registers are pairwise distinct, as the labels of one C `switch` are. -/
structure gc_mmio_regs where
  mmCP_PFP_UCODE_ADDR : Nat
  mmCP_CE_UCODE_ADDR : Nat
  mmCP_MEC_ME1_UCODE_ADDR : Nat
  mmCP_MEC_ME2_UCODE_ADDR : Nat
  mmRLC_GPM_UCODE_ADDR : Nat
  mmSDMA0_UCODE_ADDR : Nat
  mmSDMA1_UCODE_ADDR : Nat
  mmCP_ME_RAM_WADDR : Nat
  distinct : [mmCP_PFP_UCODE_ADDR, mmCP_CE_UCODE_ADDR, mmCP_MEC_ME1_UCODE_ADDR,
    mmCP_MEC_ME2_UCODE_ADDR, mmRLC_GPM_UCODE_ADDR, mmSDMA0_UCODE_ADDR,
    mmSDMA1_UCODE_ADDR].Nodup

/-- `stl_le_p(&data[offset], v)`: the four bytes of `v`, little-endian, from
`data[offset]` on. -/
def stl_le_p (data : Nat → Nat) (offset v : Nat) : Nat → Nat :=
  fun a => if offset ≤ a ∧ a < offset + 4 then (v >>> (8 * (a - offset))) % 256 else data a

/-- The `switch (mm_index)` of `liverpool_gc_ucode_load`: the buffer selected,
`none` for the `default` case. -/
def ucode_select (regs : gc_mmio_regs) (mm_index : Nat) : Option ucode_buf :=
  if mm_index = regs.mmCP_PFP_UCODE_ADDR then some .cp_pfp_ucode
  else if mm_index = regs.mmCP_CE_UCODE_ADDR then some .cp_ce_ucode
  else if mm_index = regs.mmCP_MEC_ME1_UCODE_ADDR then some .cp_mec_me1_ucode
  else if mm_index = regs.mmCP_MEC_ME2_UCODE_ADDR then some .cp_mec_me2_ucode
  else if mm_index = regs.mmRLC_GPM_UCODE_ADDR then some .rlc_gpm_ucode
  else if mm_index = regs.mmSDMA0_UCODE_ADDR then some .sdma0_ucode
  else if mm_index = regs.mmSDMA1_UCODE_ADDR then some .sdma1_ucode
  else none

/-- The store and increment that end `liverpool_gc_ucode_load` and the
`mmCP_ME_RAM_DATA` case of `liverpool_gc_mmio_write`:
`assert(offset < size); stl_le_p(&data[offset], value); mmio[reg] += 4;`
with `size = sizeof(buffer) = 0x8000`.  A store that passes the assert but does
not fit the buffer writes outside the array. -/
def ucode_store (s : LiverpoolGCState) (data : ucode_buf) (reg value : Nat) :
    Res LiverpoolGCState :=
  let offset := s.mmio reg
  let size := 0x8000
  if ¬ offset < size then .abort
  else if ¬ offset + 4 ≤ size then .fault
  else
    .ok { s with
      ucode := fun b => if b = data then stl_le_p (s.ucode data) offset value else s.ucode b
      mmio := fun j => if j = reg then (s.mmio reg + 4) % 2 ^ 32 else s.mmio j }

/-- The C function `liverpool_gc_ucode_load`. -/
def liverpool_gc_ucode_load (regs : gc_mmio_regs) (s : LiverpoolGCState)
    (mm_index mm_value : Nat) : Res LiverpoolGCState :=
  match ucode_select regs mm_index with
  | none => .abort
  | some data => ucode_store s data mm_index mm_value

/-- The `case mmCP_ME_RAM_DATA` of the C function `liverpool_gc_mmio_write`. -/
def liverpool_gc_mmio_write_me_ram (regs : gc_mmio_regs) (s : LiverpoolGCState)
    (value : Nat) : Res LiverpoolGCState :=
  ucode_store s .cp_me_ram regs.mmCP_ME_RAM_WADDR (value % 2 ^ 32)

/-- A graphics controller whose registers all hold `offset` and whose firmware
buffers are zero. -/
def gc_dev (offset : Nat) : LiverpoolGCState := ⟨fun _ => offset, fun _ _ => 0⟩

/-! ## Comparing two devices that differ in one byte of guest memory -/

theorem EXTRACT_lt (v hi lo : Nat) : EXTRACT v (hi, lo) < 2 ^ (hi - lo + 1) := by
  unfold EXTRACT
  exact Nat.mod_lt _ (by positivity)

theorem ld8_lt (mem : Nat → Nat → Nat) (as a : Nat) : ld8 mem as a < 256 := by
  unfold ld8; omega

theorem ld32_lt (mem : Nat → Nat → Nat) (p : hostptr) (k : Nat) : ld32 mem p k < 2 ^ 32 := by
  have h0 := ld8_lt mem p.as (p.addr + 4 * k)
  have h1 := ld8_lt mem p.as (p.addr + 4 * k + 1)
  have h2 := ld8_lt mem p.as (p.addr + 4 * k + 2)
  have h3 := ld8_lt mem p.as (p.addr + 4 * k + 3)
  unfold ld32
  omega

theorem pm4_it_ne (ops : pm4_it) :
    ops.PM4_IT_INDIRECT_BUFFER ≠ ops.PM4_IT_EVENT_WRITE_EOP ∧
    ops.PM4_IT_INDIRECT_BUFFER ≠ ops.PM4_IT_SET_CONFIG_REG ∧
    ops.PM4_IT_INDIRECT_BUFFER ≠ ops.PM4_IT_SET_CONTEXT_REG ∧
    ops.PM4_IT_EVENT_WRITE_EOP ≠ ops.PM4_IT_SET_CONFIG_REG ∧
    ops.PM4_IT_EVENT_WRITE_EOP ≠ ops.PM4_IT_SET_CONTEXT_REG ∧
    ops.PM4_IT_SET_CONFIG_REG ≠ ops.PM4_IT_SET_CONTEXT_REG := by
  have h := ops.distinct
  simp only [List.nodup_cons, List.mem_cons, List.mem_singleton, not_or, List.not_mem_nil,
    not_false_eq_true, List.nodup_nil, and_true] at h
  tauto

theorem count_field (v : Nat) :
    (EXTRACT v PM4_TYPE3_HEADER_COUNT + 1) % 2 ^ 32 = EXTRACT v (29, 16) + 1 ∧
    ((EXTRACT v PM4_TYPE3_HEADER_COUNT + 1) % 2 ^ 32 + 1) % 2 ^ 32 = EXTRACT v (29, 16) + 2 ∧
    ((EXTRACT v PM4_TYPE3_HEADER_COUNT + 1) % 2 ^ 32 + 2 ^ 32 - 1) % 2 ^ 32 = EXTRACT v (29, 16) := by
  have h := EXTRACT_lt v 29 16
  simp only [PM4_TYPE3_HEADER_COUNT]
  norm_num at h ⊢
  omega

theorem and_ffff_lt (x : Nat) : x &&& 0xFFFF < 2 ^ 16 := by
  exact Nat.and_lt_two_pow x (by norm_num)

theorem cp_handle_pm4_succ (fuel : Nat) (ops : pm4_it) (s : gfx_state_t) (packet : hostptr) :
    cp_handle_pm4 (fuel + 1) ops s packet =
      if EXTRACT (ld32 s.mem packet 0) (31, 30) = 0 then cp_handle_pm4_type0 s packet
      else if EXTRACT (ld32 s.mem packet 0) (31, 30) = 1 then cp_handle_pm4_type1 s packet
      else if EXTRACT (ld32 s.mem packet 0) (31, 30) = 2 then cp_handle_pm4_type2 s packet
      else cp_handle_pm4_type3 ops (fun s1 p => cp_handle_pm4 fuel ops s1 p) s packet := by
  have h := EXTRACT_lt (ld32 s.mem packet 0) 31 30
  simp only [cp_handle_pm4, PM4_PACKET_TYPE, PM4_PACKET_TYPE0, PM4_PACKET_TYPE1,
    PM4_PACKET_TYPE2, PM4_PACKET_TYPE3]
  split_ifs <;> first | rfl | omega

theorem type3_set_config (ops : pm4_it) (h : gfx_state_t → hostptr → Res (gfx_state_t × Nat))
    (s : gfx_state_t) (packet : hostptr)
    (hop : EXTRACT (ld32 s.mem packet 0) (15, 8) = ops.PM4_IT_SET_CONFIG_REG) :
    cp_handle_pm4_type3 ops h s packet =
      (cp_handle_pm4_it_set_config_reg s packet (EXTRACT (ld32 s.mem packet 0) (29, 16) + 1)).bind
        fun s1 => .ok (s1, EXTRACT (ld32 s.mem packet 0) (29, 16) + 2) := by
  obtain ⟨-, h2, -, h4, -, -⟩ := pm4_it_ne ops
  obtain ⟨c1, -, -⟩ := count_field (ld32 s.mem packet 0)
  have c2 : (EXTRACT (ld32 s.mem packet 0) (29, 16) + 1 + 1) % 2 ^ 32
      = EXTRACT (ld32 s.mem packet 0) (29, 16) + 2 := by
    have := EXTRACT_lt (ld32 s.mem packet 0) 29 16
    omega
  unfold cp_handle_pm4_type3
  simp only [PM4_TYPE3_HEADER_ITOP, hop, c1, c2, if_neg h2.symm, if_neg h4.symm, if_true]

theorem type3_set_context (ops : pm4_it) (h : gfx_state_t → hostptr → Res (gfx_state_t × Nat))
    (s : gfx_state_t) (packet : hostptr)
    (hop : EXTRACT (ld32 s.mem packet 0) (15, 8) = ops.PM4_IT_SET_CONTEXT_REG) :
    cp_handle_pm4_type3 ops h s packet =
      (cp_handle_pm4_it_set_context_reg s packet (EXTRACT (ld32 s.mem packet 0) (29, 16) + 1)).bind
        fun s1 => .ok (s1, EXTRACT (ld32 s.mem packet 0) (29, 16) + 2) := by
  obtain ⟨-, -, h3, -, h5, h6⟩ := pm4_it_ne ops
  obtain ⟨c1, -, -⟩ := count_field (ld32 s.mem packet 0)
  have c2 : (EXTRACT (ld32 s.mem packet 0) (29, 16) + 1 + 1) % 2 ^ 32
      = EXTRACT (ld32 s.mem packet 0) (29, 16) + 2 := by
    have := EXTRACT_lt (ld32 s.mem packet 0) 29 16
    omega
  unfold cp_handle_pm4_type3
  simp only [PM4_TYPE3_HEADER_ITOP, hop, c1, c2, if_neg h3.symm, if_neg h5.symm, if_neg h6.symm,
    if_true]

theorem set_config_abort_iff (s : gfx_state_t) (packet : hostptr) (c : Nat) (hc : c < 2 ^ 14) :
    cp_handle_pm4_it_set_config_reg s packet (c + 1) = .abort ↔
      (ld32 s.mem packet 1 &&& 0xFFFF) + c > 0x1000 := by
  have ho := and_ffff_lt (ld32 s.mem packet 1)
  unfold cp_handle_pm4_it_set_config_reg
  have e1 : (c + 1 + 2 ^ 32 - 1) % 2 ^ 32 = c := by omega
  have e2 : ((ld32 s.mem packet 1 &&& 0xFFFF) + c) % 2 ^ 32 = (ld32 s.mem packet 1 &&& 0xFFFF) + c := by
    omega
  simp only [e1, e2]
  split_ifs with h
  · simp; omega
  · simp; omega

theorem set_context_abort_iff (s : gfx_state_t) (packet : hostptr) (c : Nat) (hc : c < 2 ^ 14) :
    cp_handle_pm4_it_set_context_reg s packet (c + 1) = .abort ↔
      (ld32 s.mem packet 1 &&& 0xFFFF) + c > 0x400 := by
  have ho := and_ffff_lt (ld32 s.mem packet 1)
  unfold cp_handle_pm4_it_set_context_reg
  have e1 : (c + 1 + 2 ^ 32 - 1) % 2 ^ 32 = c := by omega
  have e2 : ((ld32 s.mem packet 1 &&& 0xFFFF) + c) % 2 ^ 32 = (ld32 s.mem packet 1 &&& 0xFFFF) + c := by
    omega
  simp only [e1, e2]
  split_ifs with h
  · simp; omega
  · simp; omega

theorem bind_ok_eq_abort {α β : Type} (r : Res α) (f : α → β) :
    (r.bind fun a => Res.ok (f a)) = Res.abort ↔ r = Res.abort := by
  cases r <;> simp [Res.bind]

/-- The register-block loop shared by the two set-register handlers, run for `n`
values on index `idx`: only `mmio[idx]` can change, and after `m + 1` rounds it
holds the last payload word, `packet[2 + m]`. -/
theorem set_reg_loop_effect (packet : hostptr) (idx n : Nat) (s : gfx_state_t) :
    ((List.range n).foldl (fun st i => mmio_store st idx
        (ld32 st.mem packet ((2 + i) % 2 ^ 32))) s).mem = s.mem ∧
    ((List.range n).foldl (fun st i => mmio_store st idx
        (ld32 st.mem packet ((2 + i) % 2 ^ 32))) s).gart = s.gart ∧
    ((List.range n).foldl (fun st i => mmio_store st idx
        (ld32 st.mem packet ((2 + i) % 2 ^ 32))) s).vgt_event_initiator
          = s.vgt_event_initiator ∧
    ((List.range n).foldl (fun st i => mmio_store st idx
        (ld32 st.mem packet ((2 + i) % 2 ^ 32))) s).cp_rb = s.cp_rb ∧
    ((List.range n).foldl (fun st i => mmio_store st idx
        (ld32 st.mem packet ((2 + i) % 2 ^ 32))) s).log = s.log ∧
    (∀ j, j ≠ idx → ((List.range n).foldl (fun st i => mmio_store st idx
        (ld32 st.mem packet ((2 + i) % 2 ^ 32))) s).mmio j = s.mmio j) ∧
    (∀ m, n = m + 1 → ((List.range n).foldl (fun st i => mmio_store st idx
        (ld32 st.mem packet ((2 + i) % 2 ^ 32))) s).mmio idx
          = ld32 s.mem packet ((2 + m) % 2 ^ 32)) := by
  induction n with
  | zero => simp
  | succ k ih =>
    obtain ⟨h1, h2, h3, h4, h5, h6, -⟩ := ih
    rw [List.range_succ, List.foldl_append]
    simp only [List.foldl_cons, List.foldl_nil, mmio_store]
    refine ⟨h1, h2, h3, h4, h5, fun j hj => ?_, fun m hm => ?_⟩
    · simp only [if_neg hj]
      exact h6 j hj
    · have : k = m := by omega
      subst this
      simp only [mmio_store] at h1
      simp only [if_true, h1]

/-- C1: on the scenario packet (offset `0x10`, values `0xAAAA`, `0xBBBB`) the
set-config-register handler returns, and so does the decoder with length 4, but
both values went to config entry `0x10`: it holds `0xBBBB`, the last one, and
entry `0x11` still holds its old value 0. -/
theorem C1_set_config_reg_single_entry :
    (∃ s', cp_handle_pm4_it_set_config_reg dev_config pkt0 3 = .ok s' ∧
      s'.mmio 0x2010 = 0xBBBB ∧ s'.mmio 0x2011 = 0) ∧
    (∃ s', cp_handle_pm4 1 pm4_it_amd dev_config pkt0 = .ok (s', 4) ∧
      s'.mmio (0x2000 + 0x10) ≠ ld32 dev_config.mem pkt0 2 ∧
      s'.mmio (0x2000 + 0x10 + 1) ≠ ld32 dev_config.mem pkt0 (2 + 1)) :=
  ⟨⟨_, rfl, by decide, by decide⟩, ⟨_, rfl, by decide, by decide⟩⟩

/-- C2: on the same packet with the set-context-register opcode the handler
returns with both values written to context entry `0x10`: it holds `0xBBBB`,
and entry `0x11` still holds its old value 0. -/
theorem C2_set_context_reg_single_entry :
    (∃ s', cp_handle_pm4_it_set_context_reg dev_context pkt0 3 = .ok s' ∧
      s'.mmio 0xA010 = 0xBBBB ∧ s'.mmio 0xA011 = 0) ∧
    (∃ s', cp_handle_pm4 1 pm4_it_amd dev_context pkt0 = .ok (s', 4) ∧
      s'.mmio (0xA000 + 0x10) ≠ ld32 dev_context.mem pkt0 2 ∧
      s'.mmio (0xA000 + 0x10 + 1) ≠ ld32 dev_context.mem pkt0 (2 + 1)) :=
  ⟨⟨_, rfl, by decide, by decide⟩, ⟨_, rfl, by decide, by decide⟩⟩

/-- C3: a type-3 packet with opcode SET_CONFIG_REG aborts exactly when
`offset + word_count > 0x1000`, one with opcode SET_CONTEXT_REG exactly when
`offset + word_count > 0x400`, where `offset = word1 & 0xFFFF` and
`word_count = header bits[29:16]`; the 32-bit sum the handlers compute from the
count they are passed equals the exact sum. -/
theorem C3_set_reg_abort_iff (fuel : Nat) (ops : pm4_it) (s : gfx_state_t) (packet : hostptr)
    (htype : EXTRACT (ld32 s.mem packet 0) (31, 30) = 3) :
    (EXTRACT (ld32 s.mem packet 0) (15, 8) = ops.PM4_IT_SET_CONFIG_REG →
      (cp_handle_pm4 (fuel + 1) ops s packet = .abort ↔
        (ld32 s.mem packet 1 &&& 0xFFFF) + EXTRACT (ld32 s.mem packet 0) (29, 16) > 0x1000)) ∧
    (EXTRACT (ld32 s.mem packet 0) (15, 8) = ops.PM4_IT_SET_CONTEXT_REG →
      (cp_handle_pm4 (fuel + 1) ops s packet = .abort ↔
        (ld32 s.mem packet 1 &&& 0xFFFF) + EXTRACT (ld32 s.mem packet 0) (29, 16) > 0x400)) ∧
    ((ld32 s.mem packet 1 &&& 0xFFFF) +
        ((EXTRACT (ld32 s.mem packet 0) PM4_TYPE3_HEADER_COUNT + 1) % 2 ^ 32 + 2 ^ 32 - 1) % 2 ^ 32)
        % 2 ^ 32
      = (ld32 s.mem packet 1 &&& 0xFFFF) + EXTRACT (ld32 s.mem packet 0) (29, 16) := by
  have hc := EXTRACT_lt (ld32 s.mem packet 0) 29 16
  have ho := and_ffff_lt (ld32 s.mem packet 1)
  have hd : cp_handle_pm4 (fuel + 1) ops s packet
      = cp_handle_pm4_type3 ops (fun s1 p => cp_handle_pm4 fuel ops s1 p) s packet := by
    rw [cp_handle_pm4_succ, htype]; rfl
  refine ⟨fun hop => ?_, fun hop => ?_, ?_⟩
  · rw [hd, type3_set_config ops _ s packet hop, bind_ok_eq_abort]
    exact set_config_abort_iff s packet _ (by simpa using hc)
  · rw [hd, type3_set_context ops _ s packet hop, bind_ok_eq_abort]
    exact set_context_abort_iff s packet _ (by simpa using hc)
  · rw [(count_field (ld32 s.mem packet 0)).2.2]
    norm_num at hc ho ⊢
    omega

theorem C3_set_reg_abort_iff_witness :
    cp_handle_pm4 1 pm4_it_amd (dev_with [0xC0026800, 0xFFF, 0xAAAA, 0xBBBB]) pkt0 = .abort :=
  ((C3_set_reg_abort_iff 0 pm4_it_amd (dev_with [0xC0026800, 0xFFF, 0xAAAA, 0xBBBB]) pkt0
    (by decide)).1 (by decide)).2 (by decide)

theorem bind_ok_pair {α : Type} (r : Res α) (k : Nat) (a : α) (n : Nat)
    (h : (r.bind fun x => Res.ok (x, k)) = Res.ok (a, n)) : r = Res.ok a ∧ n = k := by
  cases r <;> simp [Res.bind] at h
  obtain ⟨h1, h2⟩ := h
  exact ⟨by rw [h1], h2.symm⟩

theorem type3_length (ops : pm4_it) (h : gfx_state_t → hostptr → Res (gfx_state_t × Nat))
    (s : gfx_state_t) (packet : hostptr) (s' : gfx_state_t) (n : Nat)
    (hr : cp_handle_pm4_type3 ops h s packet = .ok (s', n)) :
    n = EXTRACT (ld32 s.mem packet 0) (29, 16) + 2 := by
  unfold cp_handle_pm4_type3 at hr
  have := (bind_ok_pair _ _ _ _ hr).2
  rw [this]
  exact (count_field (ld32 s.mem packet 0)).2.1

theorem type0_eq (s : gfx_state_t) (packet : hostptr) :
    cp_handle_pm4_type0 s packet = .ok (s, EXTRACT (ld32 s.mem packet 0) (29, 16) + 2) := by
  unfold cp_handle_pm4_type0
  have h := (count_field (ld32 s.mem packet 0)).2.1
  simp only [PM4_TYPE3_HEADER_COUNT] at h
  simp only [PM4_TYPE0_HEADER_COUNT, h]

/-- C4: for a header with type tag 0 or 3 and `c = bits[29:16]`, every length
`cp_handle_pm4` returns is `c + 2`, whatever the opcode and the fuel; and a
type-0 packet always returns, with the device unchanged. -/
theorem C4_length_is_count_plus_two (fuel : Nat) (ops : pm4_it) (s : gfx_state_t)
    (packet : hostptr)
    (htype : EXTRACT (ld32 s.mem packet 0) (31, 30) = 0 ∨
      EXTRACT (ld32 s.mem packet 0) (31, 30) = 3) :
    (∀ s' n, cp_handle_pm4 fuel ops s packet = .ok (s', n) →
      n = EXTRACT (ld32 s.mem packet 0) (29, 16) + 2) ∧
    (EXTRACT (ld32 s.mem packet 0) (31, 30) = 0 →
      cp_handle_pm4 (fuel + 1) ops s packet
        = .ok (s, EXTRACT (ld32 s.mem packet 0) (29, 16) + 2)) := by
  constructor
  · intro s' n hr
    cases fuel with
    | zero => simp [cp_handle_pm4] at hr
    | succ f =>
      rw [cp_handle_pm4_succ] at hr
      rcases htype with h0 | h3
      · rw [if_pos h0, type0_eq] at hr
        injection hr with hr
        injection hr with _ hn
        exact hn.symm
      · rw [h3] at hr
        exact type3_length ops _ s packet s' n hr
  · intro h0
    rw [cp_handle_pm4_succ, if_pos h0, type0_eq]

theorem C4_length_is_count_plus_two_witness :
    EXTRACT (ld32 (dev_with [0xC0026800, 0x10, 0xAAAA, 0xBBBB]).mem pkt0 0) (31, 30) = 3 ∧
    (∃ s', cp_handle_pm4 1 pm4_it_amd (dev_with [0xC0026800, 0x10, 0xAAAA, 0xBBBB]) pkt0
        = .ok (s', 4)) ∧
    ∀ s' n, cp_handle_pm4 1 pm4_it_amd (dev_with [0xC0026800, 0x10, 0xAAAA, 0xBBBB]) pkt0
        = .ok (s', n) → n = 4 :=
  ⟨by decide, ⟨_, rfl⟩, fun s' n hr =>
    ((C4_length_is_count_plus_two 1 pm4_it_amd
      (dev_with [0xC0026800, 0x10, 0xAAAA, 0xBBBB]) pkt0 (Or.inr (by decide))).1 s' n hr).trans
      (by decide)⟩

/-- C5: a header whose bits[31:30] equal 2 makes `cp_handle_pm4` return 1 with
the same device state: register file, latest-event-type, ring descriptors,
guest memory and mapper log are all untouched. -/
theorem C5_type2_is_nop (fuel : Nat) (ops : pm4_it) (s : gfx_state_t) (packet : hostptr)
    (htype : EXTRACT (ld32 s.mem packet 0) (31, 30) = 2) :
    cp_handle_pm4 (fuel + 1) ops s packet = .ok (s, 1) := by
  rw [cp_handle_pm4_succ, htype]
  rfl

theorem C5_type2_is_nop_witness :
    EXTRACT (ld32 (dev_with [0x8234ABCD]).mem pkt0 0) (31, 30) = 2 ∧
    cp_handle_pm4 1 pm4_it_amd (dev_with [0x8234ABCD]) pkt0 = .ok (dev_with [0x8234ABCD], 1) :=
  ⟨by decide, C5_type2_is_nop 0 pm4_it_amd (dev_with [0x8234ABCD]) pkt0 (by decide)⟩

theorem type1_abort (fuel : Nat) (ops : pm4_it) (s : gfx_state_t) (packet : hostptr)
    (htype : EXTRACT (ld32 s.mem packet 0) (31, 30) = 1) :
    cp_handle_pm4 (fuel + 1) ops s packet = .abort := by
  rw [cp_handle_pm4_succ, htype]
  rfl

theorem ib_loop_abort_first (h : gfx_state_t → hostptr → Res (gfx_state_t × Nat))
    (mapped_ib : hostptr) (ib_size : Nat) (s : gfx_state_t) (hsz : 0 < ib_size)
    (ha : h s (mapped_ib.index 0) = .abort) :
    ib_loop h mapped_ib ib_size ib_size 0 s = .abort := by
  cases ib_size with
  | zero => omega
  | succ m => simp only [ib_loop, Nat.succ_pos, if_true, ha, Res.bind]

/-- C6: a header whose bits[31:30] equal 1 makes `cp_handle_pm4` abort; with no
amount of fuel does it return a length.  Inside an indirect buffer the drain
loop aborts as soon as its cursor stands on such a header, and an
indirect-buffer packet whose sub-stream starts with one aborts as a whole. -/
theorem C6_type1_aborts (ops : pm4_it) (s : gfx_state_t) (packet : hostptr)
    (htype : EXTRACT (ld32 s.mem packet 0) (31, 30) = 1) :
    (∀ fuel, cp_handle_pm4 (fuel + 1) ops s packet = .abort) ∧
    (∀ fuel r, cp_handle_pm4 fuel ops s packet ≠ .ok r) ∧
    (∀ fuel n mapped_ib ib_size i, i < ib_size → mapped_ib.index i = packet →
      ib_loop (fun s1 p => cp_handle_pm4 (fuel + 1) ops s1 p) mapped_ib ib_size (n + 1) i s
        = .abort) ∧
    (∀ fuel (ib : hostptr),
      0 < ld32 s.mem ib 3 &&& 0xFFFFF →
      (⟨(ld32 s.mem ib 3 >>> 24) &&& 0xF,
        ld32 s.mem ib 1 ||| ((ld32 s.mem ib 2 <<< 32) % 2 ^ 64)⟩ : hostptr) = packet →
      cp_handle_pm4_it_indirect_buffer (fun s1 p => cp_handle_pm4 (fuel + 1) ops s1 p) s ib
        = .abort) := by
  refine ⟨fun fuel => type1_abort fuel ops s packet htype, ?_, ?_, ?_⟩
  · intro fuel r hr
    cases fuel with
    | zero => simp [cp_handle_pm4] at hr
    | succ f => rw [type1_abort f ops s packet htype] at hr; cases hr
  · intro fuel n mapped_ib ib_size i hi hp
    simp only [ib_loop, if_pos hi, hp, type1_abort fuel ops s packet htype, Res.bind]
  · intro fuel ib hsz hp
    unfold cp_handle_pm4_it_indirect_buffer
    simp only []
    cases hm : s.gart.map ((ld32 s.mem ib 3 >>> 24) &&& 0xF)
        (ld32 s.mem ib 1 ||| ((ld32 s.mem ib 2 <<< 32) % 2 ^ 64))
        (ld32 s.mem ib 3 &&& 0xFFFFF) with
    | none => rfl
    | some l =>
      simp only []
      split_ifs with hl
      · have hidx : hostptr.index ⟨(ld32 s.mem ib 3 >>> 24) &&& 0xF,
            ld32 s.mem ib 1 ||| ((ld32 s.mem ib 2 <<< 32) % 2 ^ 64)⟩ 0 = packet := by
          rw [← hp]; simp [hostptr.index]
        rw [ib_loop_abort_first _ _ _ _ hsz]
        · rfl
        · rw [hidx]
          exact type1_abort fuel ops _ packet htype
      · rfl

theorem C6_type1_aborts_witness :
    EXTRACT (ld32 (dev_with [0x40000000]).mem pkt0 0) (31, 30) = 1 ∧
    cp_handle_pm4 1 pm4_it_amd (dev_with [0x40000000]) pkt0 = .abort :=
  ⟨by decide, (C6_type1_aborts pm4_it_amd (dev_with [0x40000000]) pkt0 (by decide)).1 0⟩

/-- The part of the ring-location contract the code does enforce: an index above
1, a zero size and a size that is not a multiple of 8 all abort. -/
theorem set_ring_location_rejects (s : gfx_state_t) (index : Int) (base size : Nat)
    (h : 2 ≤ index ∨ size = 0 ∨ size % 8 ≠ 0) :
    liverpool_gc_gfx_cp_set_ring_location s index base size = .abort := by
  unfold liverpool_gc_gfx_cp_set_ring_location
  by_cases h1 : index ≤ 1
  · have h2 : size = 0 ∨ size % 8 ≠ 0 := by
      rcases h with h | h
      · omega
      · exact h
    by_cases h3 : size = 0
    · simp [h1, h3]
    · have h4 : size % 8 ≠ 0 := by tauto
      simp [h1, h3, h4]
  · simp [h1]

/-- C7: with `index = -1` and `size = 8` all three asserts of
`liverpool_gc_gfx_cp_set_ring_location` pass, so the call does not abort: it
goes on to index `cp_rb` below its first element. -/
theorem C7_negative_index_not_rejected (s : gfx_state_t) (base : Nat) :
    liverpool_gc_gfx_cp_set_ring_location s (-1) base 8 = .fault ∧
    liverpool_gc_gfx_cp_set_ring_location s (-1) base 8 ≠ .abort := by
  have h : liverpool_gc_gfx_cp_set_ring_location s (-1) base 8 = .fault := by
    unfold liverpool_gc_gfx_cp_set_ring_location
    rfl
  exact ⟨h, by rw [h]; exact fun h => by cases h⟩

theorem set_ring_location_ok (s : gfx_state_t) (ix : Nat) (base size l : Nat)
    (hix : ix ≤ 1) (hs0 : size ≠ 0) (hs8 : size % 8 = 0)
    (hmap : s.gart.map 0 base size = some l) (hl : size ≤ l) :
    liverpool_gc_gfx_cp_set_ring_location s (ix : Int) base size =
      .ok { s with
        cp_rb := fun j => if j = ix then
          { s.cp_rb ix with base := base, size := size,
                            mapped_base := some ⟨0, base⟩, mapped_size := l }
          else s.cp_rb j
        log := s.log ++
          (match (s.cp_rb ix).mapped_base with
            | some v => [MapEvent.unmap 0 (some v) (s.cp_rb ix).base (s.cp_rb ix).mapped_size]
            | none => []) ++ [MapEvent.map 0 base size] } := by
  unfold liverpool_gc_gfx_cp_set_ring_location
  have h1 : (ix : Int) ≤ 1 := by omega
  simp only [h1, not_true_eq_false, if_false, hs0, ne_eq, not_false_eq_true, hs8]
  cases hv : (s.cp_rb ix).mapped_base with
  | none =>
    simp [cp_rb_store, hmap, hv, hl]
    funext j
    by_cases hj : j = ix <;> simp [hj]
  | some v =>
    simp [cp_rb_store, hmap, hv, hl]
    funext j
    by_cases hj : j = ix <;> simp [hj]

/-- C8: a valid `liverpool_gc_gfx_cp_set_ring_location(s, ix, base, size)` (index
0 or 1, size a non-zero multiple of 8, the mapper granting `l ≥ size` bytes)
returns; on a ring that holds a mapping the mapper log grows by exactly one
unmap of the old view with the old base and old mapped size followed by one map
of `(base, size)`, on a ring without mapping by exactly that one map.  The
descriptor then holds `base`, `size`, the new view and `l`; nothing else of the
device changes.  A later valid reconfiguration of the same ring releases the
view acquired here, once, and nothing older. -/
theorem C8_reconfigure_releases_once (s : gfx_state_t) (ix : Nat) (base size l : Nat)
    (hix : ix ≤ 1) (hs0 : size ≠ 0) (hs8 : size % 8 = 0)
    (hmap : s.gart.map 0 base size = some l) (hl : size ≤ l) :
    ∃ s', liverpool_gc_gfx_cp_set_ring_location s (ix : Int) base size = .ok s' ∧
      (∀ v, (s.cp_rb ix).mapped_base = some v →
        s'.log = s.log ++ [MapEvent.unmap 0 (some v) (s.cp_rb ix).base (s.cp_rb ix).mapped_size,
          MapEvent.map 0 base size]) ∧
      ((s.cp_rb ix).mapped_base = none → s'.log = s.log ++ [MapEvent.map 0 base size]) ∧
      (s'.cp_rb ix).base = base ∧ (s'.cp_rb ix).size = size ∧
      (s'.cp_rb ix).mapped_base = some ⟨0, base⟩ ∧ (s'.cp_rb ix).mapped_size = l ∧
      (s'.cp_rb ix).rptr = (s.cp_rb ix).rptr ∧ (s'.cp_rb ix).wptr = (s.cp_rb ix).wptr ∧
      (∀ j, j ≠ ix → s'.cp_rb j = s.cp_rb j) ∧
      s'.mmio = s.mmio ∧ s'.vgt_event_initiator = s.vgt_event_initiator ∧ s'.mem = s.mem ∧
      (∀ base2 size2 l2, size2 ≠ 0 → size2 % 8 = 0 →
        s.gart.map 0 base2 size2 = some l2 → size2 ≤ l2 →
        ∃ s'', liverpool_gc_gfx_cp_set_ring_location s' (ix : Int) base2 size2 = .ok s'' ∧
          s''.log = s'.log ++ [MapEvent.unmap 0 (some ⟨0, base⟩) base l,
            MapEvent.map 0 base2 size2]) := by
  refine ⟨_, set_ring_location_ok s ix base size l hix hs0 hs8 hmap hl, ?_, ?_, ?_, ?_, ?_, ?_,
    ?_, ?_, ?_, rfl, rfl, rfl, ?_⟩
  · intro v hv
    simp [hv]
  · intro hv
    simp [hv]
  · simp
  · simp
  · simp
  · simp
  · simp
  · simp
  · intro j hj
    simp [hj]
  · intro base2 size2 l2 h0 h8 hm2 hl2
    refine ⟨_, set_ring_location_ok _ ix base2 size2 l2 hix h0 h8 hm2 hl2, ?_⟩
    simp

theorem C8_reconfigure_releases_once_witness :
    ∃ s', liverpool_gc_gfx_cp_set_ring_location dev_mapped 0 0x8000 0x200 = .ok s' ∧
      s'.log = [MapEvent.unmap 0 (some ⟨0, 0x4000⟩) 0x4000 0x100, MapEvent.map 0 0x8000 0x200] := by
  obtain ⟨s', h1, h2, -⟩ := C8_reconfigure_releases_once dev_mapped 0 0x8000 0x200 0x200
    (by decide) (by decide) (by decide) rfl (by decide)
  exact ⟨s', h1, h2 ⟨0, 0x4000⟩ rfl⟩

theorem eop_sel_eq (s : gfx_state_t) (packet : hostptr) :
    EXTRACT (ld32 s.mem packet 3) (31, 29) = eop_data_sel s packet := by
  simp [EXTRACT, eop_data_sel]

theorem eop_addr_eq (s : gfx_state_t) (packet : hostptr) :
    ((EXTRACT (ld32 s.mem packet 3) (15, 0) <<< 32) % 2 ^ 64) ||| ld32 s.mem packet 2
      = eop_addr s packet := by
  have h : ld32 s.mem packet 3 % 2 ^ 16 < 2 ^ 16 := Nat.mod_lt _ (by norm_num)
  have e : ((ld32 s.mem packet 3 % 2 ^ 16) <<< 32) % 2 ^ 64
      = (ld32 s.mem packet 3 % 2 ^ 16) <<< 32 := by
    rw [Nat.shiftLeft_eq]
    apply Nat.mod_eq_of_lt
    omega
  simp only [EXTRACT, eop_addr, Nat.shiftRight_zero]
  rw [e]

theorem eop_no_write (s : gfx_state_t) (packet : hostptr)
    (hd : eop_data_sel s packet = 0 ∨ 5 ≤ eop_data_sel s packet) :
    cp_handle_pm4_it_event_write_eop s packet =
      .ok { s with vgt_event_initiator := EXTRACT (ld32 s.mem packet 1) (5, 0) } := by
  unfold cp_handle_pm4_it_event_write_eop
  simp only [eop_sel_eq]
  rcases hd with hd | hd
  · rw [hd]; rfl
  · obtain ⟨k, hk⟩ : ∃ k, eop_data_sel s packet = k + 5 := ⟨_, (Nat.sub_add_cancel hd).symm⟩
    rw [hk]; rfl

theorem eop_write (s : gfx_state_t) (packet : hostptr) (size data l : Nat)
    (hsz : size ≠ 0)
    (hd : eop_size_data (eop_data_sel s packet) (ld32 s.mem packet 4) (ld32 s.mem packet 5)
      = (size, data))
    (hmap : s.gart.map 0 (eop_addr s packet) size = some l) :
    cp_handle_pm4_it_event_write_eop s packet =
      .ok { s with
        mem := memcpy s.mem ⟨0, eop_addr s packet⟩ data size
        log := s.log ++ [MapEvent.map 0 (eop_addr s packet) size,
          MapEvent.unmap 0 (some ⟨0, eop_addr s packet⟩) (eop_addr s packet) l]
        vgt_event_initiator := EXTRACT (ld32 s.mem packet 1) (5, 0) } := by
  unfold cp_handle_pm4_it_event_write_eop
  simp only [eop_sel_eq, eop_addr_eq, hd, hsz, ne_eq, not_false_eq_true, if_true, hmap]
  simp [Res.bind]

theorem ld8_memcpy (mem : Nat → Nat → Nat) (p : hostptr) (data size j : Nat) (hj : j < size) :
    ld8 (memcpy mem p data size) p.as (p.addr + j) = (data / 2 ^ (8 * j)) % 256 := by
  unfold ld8 memcpy
  have h : p.as = p.as ∧ p.addr ≤ p.addr + j ∧ p.addr + j < p.addr + size := ⟨rfl, by omega, by omega⟩
  rw [if_pos h, Nat.add_sub_cancel_left, Nat.shiftRight_eq_div_pow, Nat.mod_mod]

theorem ld32_memcpy_0 (mem : Nat → Nat → Nat) (p : hostptr) (data size : Nat) (hs : 4 ≤ size) :
    ld32 (memcpy mem p data size) p 0 = data % 2 ^ 32 := by
  have h0 := ld8_memcpy mem p data size 0 (by omega)
  have h1 := ld8_memcpy mem p data size 1 (by omega)
  have h2 := ld8_memcpy mem p data size 2 (by omega)
  have h3 := ld8_memcpy mem p data size 3 (by omega)
  unfold ld32
  simp only [Nat.mul_zero, Nat.add_zero] at h0 ⊢
  rw [h0, h1, h2, h3]
  norm_num
  omega

theorem ld32_memcpy_1 (mem : Nat → Nat → Nat) (p : hostptr) (data size : Nat) (hs : 8 ≤ size) :
    ld32 (memcpy mem p data size) p 1 = (data / 2 ^ 32) % 2 ^ 32 := by
  have h0 := ld8_memcpy mem p data size 4 (by omega)
  have h1 := ld8_memcpy mem p data size 5 (by omega)
  have h2 := ld8_memcpy mem p data size 6 (by omega)
  have h3 := ld8_memcpy mem p data size 7 (by omega)
  unfold ld32
  simp only [Nat.mul_one, Nat.add_assoc] at h0 ⊢
  norm_num at h0 h1 h2 h3 ⊢
  rw [h0, h1, h2, h3]
  omega

theorem eop_data64 (lo hi : Nat) (hlo : lo < 2 ^ 32) (hhi : hi < 2 ^ 32) :
    ((hi <<< 32) % 2 ^ 64) ||| lo = (hi <<< 32) ||| lo ∧
    ((hi <<< 32) ||| lo) % 2 ^ 32 = lo ∧ (((hi <<< 32) ||| lo) / 2 ^ 32) % 2 ^ 32 = hi := by
  have e : (hi <<< 32) % 2 ^ 64 = hi <<< 32 := by
    rw [Nat.shiftLeft_eq]; apply Nat.mod_eq_of_lt; omega
  have e2 : (hi <<< 32) ||| lo = 2 ^ 32 * hi + lo := by
    rw [Nat.shiftLeft_eq, Nat.mul_comm]
    exact (Nat.mul_add_lt_is_or hlo hi).symm
  rw [e, e2]
  refine ⟨rfl, ?_, ?_⟩ <;> omega

/-- C9: the memory effect of an end-of-pipe event write, by data selector
`d = word3 bits[31:29]`, with `A = (word3 bits[15:0] << 32) | word2`,
`low = word4`, `high = word5`.  `d = 0` and `d ≥ 5` leave guest memory and the
mapper log as they are.  `d = 1` changes exactly the 4 bytes at `A` of context 0,
to `low`; `d = 2` exactly the 8 bytes at `A`, to `(high << 32) | low`
little-endian, so that the dword at `A` reads `low` and the next one `high`;
`d = 3` and `d = 4` zero exactly the 8 bytes at `A`.  Each write is bracketed by
one map of context 0 at `A` for exactly the write size and the release of that
view, and nothing else is logged. -/
theorem C9_eop_memory_write (s : gfx_state_t) (packet : hostptr) :
    (eop_data_sel s packet = 0 ∨ 5 ≤ eop_data_sel s packet →
      ∃ s', cp_handle_pm4_it_event_write_eop s packet = .ok s' ∧
        s'.mem = s.mem ∧ s'.log = s.log) ∧
    (∀ l, eop_data_sel s packet = 1 → s.gart.map 0 (eop_addr s packet) 4 = some l →
      ∃ s', cp_handle_pm4_it_event_write_eop s packet = .ok s' ∧
        s'.log = s.log ++ [MapEvent.map 0 (eop_addr s packet) 4,
          MapEvent.unmap 0 (some ⟨0, eop_addr s packet⟩) (eop_addr s packet) l] ∧
        (∀ as a, s'.mem as a =
          if as = 0 ∧ eop_addr s packet ≤ a ∧ a < eop_addr s packet + 4 then
            (ld32 s.mem packet 4 >>> (8 * (a - eop_addr s packet))) % 256
          else s.mem as a) ∧
        ld32 s'.mem ⟨0, eop_addr s packet⟩ 0 = ld32 s.mem packet 4) ∧
    (∀ l, eop_data_sel s packet = 2 → s.gart.map 0 (eop_addr s packet) 8 = some l →
      ∃ s', cp_handle_pm4_it_event_write_eop s packet = .ok s' ∧
        s'.log = s.log ++ [MapEvent.map 0 (eop_addr s packet) 8,
          MapEvent.unmap 0 (some ⟨0, eop_addr s packet⟩) (eop_addr s packet) l] ∧
        (∀ as a, s'.mem as a =
          if as = 0 ∧ eop_addr s packet ≤ a ∧ a < eop_addr s packet + 8 then
            (((ld32 s.mem packet 5 <<< 32) ||| ld32 s.mem packet 4)
              >>> (8 * (a - eop_addr s packet))) % 256
          else s.mem as a) ∧
        ld32 s'.mem ⟨0, eop_addr s packet⟩ 0 = ld32 s.mem packet 4 ∧
        ld32 s'.mem ⟨0, eop_addr s packet⟩ 1 = ld32 s.mem packet 5) ∧
    (∀ l, eop_data_sel s packet = 3 ∨ eop_data_sel s packet = 4 →
      s.gart.map 0 (eop_addr s packet) 8 = some l →
      ∃ s', cp_handle_pm4_it_event_write_eop s packet = .ok s' ∧
        s'.log = s.log ++ [MapEvent.map 0 (eop_addr s packet) 8,
          MapEvent.unmap 0 (some ⟨0, eop_addr s packet⟩) (eop_addr s packet) l] ∧
        (∀ as a, s'.mem as a =
          if as = 0 ∧ eop_addr s packet ≤ a ∧ a < eop_addr s packet + 8 then 0
          else s.mem as a)) := by
  have hlo := ld32_lt s.mem packet 4
  have hhi := ld32_lt s.mem packet 5
  obtain ⟨d1, d2, d3⟩ := eop_data64 _ _ hlo hhi
  refine ⟨fun hd => ⟨_, eop_no_write s packet hd, rfl, rfl⟩, fun l hd hmap => ?_,
    fun l hd hmap => ?_, fun l hd hmap => ?_⟩
  · refine ⟨_, eop_write s packet 4 (ld32 s.mem packet 4) l (by decide) (by rw [hd]; rfl) hmap,
      rfl, fun as a => rfl, ?_⟩
    show ld32 (memcpy s.mem ⟨0, eop_addr s packet⟩ _ 4) _ 0 = _
    rw [ld32_memcpy_0 _ _ _ _ (le_refl _), Nat.mod_eq_of_lt hlo]
  · refine ⟨_, eop_write s packet 8 ((ld32 s.mem packet 5 <<< 32) ||| ld32 s.mem packet 4) l
      (by decide) (by rw [hd, ← d1]; rfl) hmap, rfl, fun as a => rfl, ?_, ?_⟩
    · show ld32 (memcpy s.mem ⟨0, eop_addr s packet⟩ _ 8) _ 0 = _
      rw [ld32_memcpy_0 _ _ _ _ (by decide), d2]
    · show ld32 (memcpy s.mem ⟨0, eop_addr s packet⟩ _ 8) _ 1 = _
      rw [ld32_memcpy_1 _ _ _ _ (le_refl _), d3]
  · refine ⟨_, eop_write s packet 8 0 l (by decide)
      (by rcases hd with hd | hd <;> rw [hd] <;> rfl) hmap, rfl, fun as a => ?_⟩
    show memcpy s.mem ⟨0, eop_addr s packet⟩ 0 8 as a = _
    simp [memcpy]


theorem C9_eop_memory_write_witness :
    eop_data_sel dev_eop pkt0 = 2 ∧
    ∃ s', cp_handle_pm4_it_event_write_eop dev_eop pkt0 = .ok s' ∧
      ld32 s'.mem ⟨0, 0x2000⟩ 0 = 0x11111111 ∧ ld32 s'.mem ⟨0, 0x2000⟩ 1 = 0x22222222 := by
  obtain ⟨s', h, -, -, r0, r1⟩ := (C9_eop_memory_write dev_eop pkt0).2.2.1 8 (by decide) rfl
  exact ⟨by decide, s', h, r0, r1⟩

/-- C10: whenever the end-of-pipe handler returns, the latest-event-type is
`word1 & 0x3F` and the register file is the one it was entered with, whatever
the data and interrupt selectors; and it does return whenever the mapper hands
out a view for the write. -/
theorem C10_eop_event_type (s : gfx_state_t) (packet : hostptr) :
    (∀ s', cp_handle_pm4_it_event_write_eop s packet = .ok s' →
      s'.vgt_event_initiator = ld32 s.mem packet 1 &&& 0x3F ∧ s'.mmio = s.mmio) ∧
    ((∀ len, s.gart.map 0 (eop_addr s packet) len ≠ none) →
      ∃ s', cp_handle_pm4_it_event_write_eop s packet = .ok s') := by
  have hev : EXTRACT (ld32 s.mem packet 1) (5, 0) = ld32 s.mem packet 1 &&& 0x3F := by
    have := Nat.and_pow_two_sub_one_eq_mod (ld32 s.mem packet 1) 6
    simp only [EXTRACT, Nat.shiftRight_zero]
    norm_num at this ⊢
    exact this.symm
  have key : ∀ size data,
      eop_size_data (eop_data_sel s packet) (ld32 s.mem packet 4) (ld32 s.mem packet 5)
        = (size, data) →
      (∀ s', cp_handle_pm4_it_event_write_eop s packet = .ok s' →
        s'.vgt_event_initiator = ld32 s.mem packet 1 &&& 0x3F ∧ s'.mmio = s.mmio) ∧
      ((∀ len, s.gart.map 0 (eop_addr s packet) len ≠ none) →
        ∃ s', cp_handle_pm4_it_event_write_eop s packet = .ok s') := by
    intro size data hsd
    by_cases hsz : size = 0
    · have hd : eop_data_sel s packet = 0 ∨ 5 ≤ eop_data_sel s packet := by
        subst hsz
        unfold eop_size_data at hsd
        split at hsd
        · left; assumption
        · simp at hsd
        · simp at hsd
        · simp at hsd
        · simp at hsd
        · rename_i h0 h1 h2 h3 h4
          have a0 : eop_data_sel s packet ≠ 0 := h0
          have a1 : eop_data_sel s packet ≠ 1 := h1
          have a2 : eop_data_sel s packet ≠ 2 := h2
          have a3 : eop_data_sel s packet ≠ 3 := h3
          have a4 : eop_data_sel s packet ≠ 4 := h4
          right; omega
      rw [eop_no_write s packet hd]
      exact ⟨fun s' h => by cases h; exact ⟨hev, rfl⟩, fun _ => ⟨_, rfl⟩⟩
    · cases hm : s.gart.map 0 (eop_addr s packet) size with
      | none =>
        refine ⟨fun s' h => ?_, fun hall => absurd hm (hall size)⟩
        exfalso
        unfold cp_handle_pm4_it_event_write_eop at h
        simp only [eop_sel_eq, eop_addr_eq, hsd, hsz, ne_eq, not_false_eq_true, if_true, hm,
          Res.bind] at h
        cases h
      | some l =>
        rw [eop_write s packet size data l hsz hsd hm]
        exact ⟨fun s' h => by cases h; exact ⟨hev, rfl⟩, fun _ => ⟨_, rfl⟩⟩
  exact key _ _ rfl

theorem C10_eop_event_type_witness :
    ∃ s', cp_handle_pm4_it_event_write_eop dev_eop pkt0 = .ok s' ∧
      s'.vgt_event_initiator = 0x2F := by
  obtain ⟨s', h⟩ := (C10_eop_event_type dev_eop pkt0).2 (fun len => by simp [dev_eop, dev_with])
  exact ⟨s', h, ((C10_eop_event_type dev_eop pkt0).1 s' h).1.trans (by decide)⟩

theorem bind_eq_ok {α β : Type} (r : Res α) (f : α → Res β) (b : β)
    (h : r.bind f = .ok b) : ∃ a, r = .ok a ∧ f a = .ok b := by
  cases r with
  | ok a => exact ⟨a, rfl, h⟩
  | abort => cases h
  | fault => cases h
  | fuel => cases h

theorem ib_run_ok_of (h : gfx_state_t → hostptr → Res (gfx_state_t × Nat))
    (P : gfx_state_t → gfx_state_t → Prop) (hrefl : ∀ s, P s s)
    (htrans : ∀ a b c, P a b → P b c → P a c)
    (hh : ∀ s p r, h s p = .ok r → P s r.1)
    (mapped_ib : hostptr) (ib_size : Nat) :
    ∀ n i k s r, ib_run h mapped_ib ib_size n i k s = .ok r → P s r.1 := by
  intro n
  induction n with
  | zero =>
    intro i k s r hr
    simp only [ib_run] at hr
    split_ifs at hr
    cases hr
    exact hrefl s
  | succ m ih =>
    intro i k s r hr
    simp only [ib_run] at hr
    split_ifs at hr
    · obtain ⟨a, ha, hb⟩ := bind_eq_ok _ _ _ hr
      exact htrans _ _ _ (hh _ _ _ ha) (ih _ _ _ _ hb)
    · cases hr
      exact hrefl s

theorem ib_loop_eq_run (h : gfx_state_t → hostptr → Res (gfx_state_t × Nat))
    (mapped_ib : hostptr) (ib_size : Nat) :
    ∀ n i k s, ib_loop h mapped_ib ib_size n i s
      = (ib_run h mapped_ib ib_size n i k s).bind fun r => .ok r.1 := by
  intro n
  induction n with
  | zero =>
    intro i k s
    simp only [ib_loop, ib_run]
    split_ifs <;> rfl
  | succ m ih =>
    intro i k s
    simp only [ib_loop, ib_run]
    split_ifs
    · cases hq : h s (mapped_ib.index i) with
      | ok a => simp only [Res.bind]; exact ih _ _ _
      | abort => rfl
      | fault => rfl
      | fuel => rfl
    · rfl


theorem eop_keeps (s : gfx_state_t) (packet : hostptr) (s' : gfx_state_t)
    (h : cp_handle_pm4_it_event_write_eop s packet = .ok s') : keeps_rings s s' := by
  unfold cp_handle_pm4_it_event_write_eop at h
  simp only [] at h
  obtain ⟨a, ha, hb⟩ := bind_eq_ok _ _ _ h
  cases hb
  split_ifs at ha with hsz
  · split at ha
    · cases ha
    · cases ha
      exact ⟨rfl, rfl⟩
  · cases ha
    exact ⟨rfl, rfl⟩

theorem set_config_keeps (s : gfx_state_t) (packet : hostptr) (count : Nat) (s' : gfx_state_t)
    (h : cp_handle_pm4_it_set_config_reg s packet count = .ok s') : keeps_rings s s' := by
  unfold cp_handle_pm4_it_set_config_reg at h
  simp only [] at h
  split_ifs at h
  rw [← Res.ok.inj h]
  obtain ⟨-, h2, -, h4, -⟩ := set_reg_loop_effect packet (0x2000 + (ld32 s.mem packet 1 &&& 0xFFFF))
    ((count + 2 ^ 32 - 1) % 2 ^ 32) s
  exact ⟨h2, h4⟩

theorem set_context_keeps (s : gfx_state_t) (packet : hostptr) (count : Nat) (s' : gfx_state_t)
    (h : cp_handle_pm4_it_set_context_reg s packet count = .ok s') : keeps_rings s s' := by
  unfold cp_handle_pm4_it_set_context_reg at h
  simp only [] at h
  split_ifs at h
  rw [← Res.ok.inj h]
  obtain ⟨-, h2, -, h4, -⟩ := set_reg_loop_effect packet (0xA000 + (ld32 s.mem packet 1 &&& 0xFFFF))
    ((count + 2 ^ 32 - 1) % 2 ^ 32) s
  exact ⟨h2, h4⟩

theorem keeps_rings_trans (a b c : gfx_state_t) (h1 : keeps_rings a b) (h2 : keeps_rings b c) :
    keeps_rings a c :=
  ⟨h2.1.trans h1.1, h2.2.trans h1.2⟩

theorem ib_keeps (h : gfx_state_t → hostptr → Res (gfx_state_t × Nat))
    (hh : ∀ s p r, h s p = .ok r → keeps_rings s r.1)
    (s : gfx_state_t) (packet : hostptr) (s' : gfx_state_t)
    (hr : cp_handle_pm4_it_indirect_buffer h s packet = .ok s') : keeps_rings s s' := by
  unfold cp_handle_pm4_it_indirect_buffer at hr
  simp only [] at hr
  split at hr
  · cases hr
  · split_ifs at hr
    obtain ⟨a, ha, hb⟩ := bind_eq_ok _ _ _ hr
    cases hb
    rw [ib_loop_eq_run h _ _ _ _ 0] at ha
    obtain ⟨b, hb1, hb2⟩ := bind_eq_ok _ _ _ ha
    cases hb2
    have := ib_run_ok_of h keeps_rings (fun s => ⟨rfl, rfl⟩) keeps_rings_trans hh _ _ _ _ _ _ _ hb1
    exact ⟨this.1, this.2⟩

/-- Every run of the decoder that returns leaves the mapper and the ring
descriptors alone and reports a length between 1 and `0x4001`. -/
theorem cp_handle_pm4_ok (ops : pm4_it) :
    ∀ fuel s packet s' n, cp_handle_pm4 fuel ops s packet = .ok (s', n) →
      keeps_rings s s' ∧ 1 ≤ n ∧ n ≤ 0x4001 := by
  intro fuel
  induction fuel with
  | zero =>
    intro s packet s' n hr
    simp [cp_handle_pm4] at hr
  | succ f ih =>
    intro s packet s' n hr
    have hc := EXTRACT_lt (ld32 s.mem packet 0) 29 16
    norm_num at hc
    rw [cp_handle_pm4_succ] at hr
    split_ifs at hr with h0 h1 h2
    · rw [type0_eq] at hr
      cases hr
      exact ⟨⟨rfl, rfl⟩, by omega, by omega⟩
    · cases hr
    · cases hr
      exact ⟨⟨rfl, rfl⟩, by omega, by omega⟩
    · have hn := type3_length ops _ s packet s' n hr
      refine ⟨?_, by omega, by omega⟩
      unfold cp_handle_pm4_type3 at hr
      simp only [] at hr
      obtain ⟨a, ha, hb⟩ := bind_eq_ok _ _ _ hr
      cases hb
      split_ifs at ha
      · exact ib_keeps _ (fun s p r hr => (ih s p r.1 r.2 hr).1) s packet _ ha
      · exact eop_keeps s packet _ ha
      · exact set_config_keeps s packet _ _ ha
      · exact set_context_keeps s packet _ _ ha
      · cases ha
        exact ⟨rfl, rfl⟩

theorem ib_fields_eq (s : gfx_state_t) (packet : hostptr) :
    (ld32 s.mem packet 3 >>> 24) &&& 0xF = ib_vmid s packet ∧
    ld32 s.mem packet 1 ||| ((ld32 s.mem packet 2 <<< 32) % 2 ^ 64) = ib_addr s packet := by
  have h2 := ld32_lt s.mem packet 2
  have e : (ld32 s.mem packet 2 <<< 32) % 2 ^ 64 = ld32 s.mem packet 2 <<< 32 := by
    rw [Nat.shiftLeft_eq]; apply Nat.mod_eq_of_lt; omega
  refine ⟨?_, by rw [e]; rfl⟩
  have := Nat.and_pow_two_sub_one_eq_mod (ld32 s.mem packet 3 >>> 24) 4
  simp only [ib_vmid, EXTRACT]
  norm_num at this ⊢
  exact this

theorem ib_handler_eq (h : gfx_state_t → hostptr → Res (gfx_state_t × Nat))
    (s : gfx_state_t) (packet : hostptr) (l : Nat)
    (hmap : s.gart.map (ib_vmid s packet) (ib_addr s packet) (ib_count s packet) = some l)
    (hl : ib_count s packet ≤ l) :
    cp_handle_pm4_it_indirect_buffer h s packet =
      (ib_run h ⟨ib_vmid s packet, ib_addr s packet⟩ (ib_count s packet) (ib_count s packet) 0 0
        (ib_entered s packet)).bind fun r =>
        .ok { r.1 with log := r.1.log ++ [MapEvent.unmap (ib_vmid s packet)
          (some ⟨ib_vmid s packet, ib_addr s packet⟩) (ib_addr s packet) l] } := by
  obtain ⟨e1, e2⟩ := ib_fields_eq s packet
  unfold cp_handle_pm4_it_indirect_buffer
  simp only [e1, e2]
  rw [show ld32 s.mem packet 3 &&& 0xFFFFF = ib_count s packet from rfl]
  simp only [hmap, ge_iff_le, hl, not_true_eq_false, if_false]
  rw [ib_loop_eq_run h _ _ _ _ 0]
  show (Res.bind (ib_run h _ _ _ 0 0 (ib_entered s packet)) _).bind _ = _
  cases ib_run h ⟨ib_vmid s packet, ib_addr s packet⟩ (ib_count s packet) (ib_count s packet) 0 0
    (ib_entered s packet) <;> rfl

theorem apply_packets_cursor (h : gfx_state_t → hostptr → Res (gfx_state_t × Nat))
    (hprog : ∀ s p r, h s p = .ok r → 1 ≤ r.2) (p : hostptr) :
    ∀ n i s s2 c, apply_packets h p n i s = .ok (s2, c) → i + n ≤ c := by
  intro n
  induction n with
  | zero =>
    intro i s s2 c hr
    simp only [apply_packets] at hr
    cases hr
    omega
  | succ m ih =>
    intro i s s2 c hr
    simp only [apply_packets] at hr
    obtain ⟨r, hr1, hr2⟩ := bind_eq_ok _ _ _ hr
    have := ih _ _ _ _ hr2
    have := hprog _ _ _ hr1
    omega

theorem run_of_apply (h : gfx_state_t → hostptr → Res (gfx_state_t × Nat))
    (hprog : ∀ s p r, h s p = .ok r → 1 ≤ r.2) (p : hostptr) (count : Nat)
    (hc : count < 2 ^ 32) :
    ∀ n i k s s2 N, apply_packets h p n i s = .ok (s2, count) → count - i ≤ N →
      ib_run h p count N i k s = .ok (s2, count, k + n) := by
  intro n
  induction n with
  | zero =>
    intro i k s s2 N hr _
    simp only [apply_packets] at hr
    cases hr
    cases N <;> simp [ib_run]
  | succ m ih =>
    intro i k s s2 N hr hN
    have hcur := apply_packets_cursor h hprog p _ _ _ _ _ hr
    simp only [apply_packets] at hr
    obtain ⟨r, hr1, hr2⟩ := bind_eq_ok _ _ _ hr
    have hr2c := apply_packets_cursor h hprog p _ _ _ _ _ hr2
    have hp1 := hprog _ _ _ hr1
    have hlt : i < count := by omega
    obtain ⟨N', rfl⟩ : ∃ N', N = N' + 1 := ⟨N - 1, by omega⟩
    have hmod : (i + r.2) % 2 ^ 32 = i + r.2 := Nat.mod_eq_of_lt (by omega)
    simp only [ib_run, if_pos hlt, hr1, Res.bind, hmod]
    rw [ih _ (k + 1) _ _ N' hr2 (by omega)]
    congr 3
    omega

theorem ib_count_lt (s : gfx_state_t) (packet : hostptr) : ib_count s packet < 2 ^ 20 := by
  unfold ib_count
  exact Nat.and_lt_two_pow _ (by norm_num)

/-- C11: let the mapper grant the view of an indirect-buffer packet, and let
`n` packets applied one after the other by `cp_handle_pm4`, the first at dword 0
of the sub-stream and each next one where the previous one ended, all return and
end exactly at dword `count = word3 & 0xFFFFF`, leaving state `s2`.  Then the
handler returns, its state is `s2` followed by the release of the view, the
drain loop made exactly those `n` dispatches with a final cursor of `count`, and
for `count = 0` it dispatched nothing. -/
theorem C11_indirect_buffer_drains (fuel : Nat) (ops : pm4_it) (s : gfx_state_t)
    (packet : hostptr) (l n : Nat) (s2 : gfx_state_t)
    (hmap : s.gart.map (ib_vmid s packet) (ib_addr s packet) (ib_count s packet) = some l)
    (hl : ib_count s packet ≤ l)
    (hseq : apply_packets (fun s1 p => cp_handle_pm4 fuel ops s1 p)
      ⟨ib_vmid s packet, ib_addr s packet⟩ n 0 (ib_entered s packet)
        = .ok (s2, ib_count s packet)) :
    cp_handle_pm4_it_indirect_buffer (fun s1 p => cp_handle_pm4 fuel ops s1 p) s packet
      = .ok { s2 with log := s2.log ++ [MapEvent.unmap (ib_vmid s packet)
          (some ⟨ib_vmid s packet, ib_addr s packet⟩) (ib_addr s packet) l] } ∧
    ib_run (fun s1 p => cp_handle_pm4 fuel ops s1 p) ⟨ib_vmid s packet, ib_addr s packet⟩
      (ib_count s packet) (ib_count s packet) 0 0 (ib_entered s packet)
      = .ok (s2, ib_count s packet, n) ∧
    (ib_count s packet = 0 → n = 0 ∧ s2 = ib_entered s packet) := by
  have hprog : ∀ s1 p r, (fun s1 p => cp_handle_pm4 fuel ops s1 p) s1 p = .ok r → 1 ≤ r.2 :=
    fun s1 p r hr => (cp_handle_pm4_ok ops fuel s1 p r.1 r.2 hr).2.1
  have hc := ib_count_lt s packet
  have hrun := run_of_apply _ hprog ⟨ib_vmid s packet, ib_addr s packet⟩ (ib_count s packet)
    (by omega) n 0 0 (ib_entered s packet) s2 (ib_count s packet) hseq (by omega)
  rw [Nat.zero_add] at hrun
  refine ⟨?_, hrun, fun h0 => ?_⟩
  · rw [ib_handler_eq _ s packet l hmap hl, hrun]
    rfl
  · have hcur := apply_packets_cursor _ hprog _ _ _ _ _ _ hseq
    have hn : n = 0 := by omega
    subst hn
    simp only [apply_packets] at hseq
    exact ⟨rfl, (Prod.mk.inj (Res.ok.inj hseq)).1.symm⟩

theorem C11_indirect_buffer_drains_witness :
    ∃ s', cp_handle_pm4_it_indirect_buffer (fun s1 p => cp_handle_pm4 1 pm4_it_amd s1 p)
        dev_ib pkt0 = .ok s' ∧
      s'.mmio 0x2010 = 0xBBBB ∧
      s'.log = [MapEvent.map 0 0x1010 5, MapEvent.unmap 0 (some ⟨0, 0x1010⟩) 0x1010 5] :=
  ⟨_, (C11_indirect_buffer_drains 1 pm4_it_amd dev_ib pkt0 5 2 _ rfl (by decide) rfl).1,
    by decide, by decide⟩

theorem ib_run_outcome (h : gfx_state_t → hostptr → Res (gfx_state_t × Nat))
    (hprog : ∀ s p r, h s p = .ok r → 1 ≤ r.2 ∧ r.2 ≤ 0x4001)
    (p : hostptr) (sz : Nat) (hsz : sz ≤ 0xFFFFF) :
    ∀ N i k s, sz - i ≤ N → i ≤ sz + 0x4000 →
      (∃ m s' c, apply_packets h p m i s = .ok (s', c) ∧
        ib_run h p sz N i k s = .ok (s', c, k + m) ∧
        m ≤ sz - i ∧ sz ≤ c ∧ c ≤ sz + 0x4000) ∨
      (∃ m s1 j, apply_packets h p m i s = .ok (s1, j) ∧ j < sz ∧ m < sz - i ∧
        ((h s1 (p.index j) = .abort ∧ ib_run h p sz N i k s = .abort) ∨
         (h s1 (p.index j) = .fault ∧ ib_run h p sz N i k s = .fault) ∨
         (h s1 (p.index j) = .fuel ∧ ib_run h p sz N i k s = .fuel))) := by
  intro N
  induction N with
  | zero =>
    intro i k s hN hi
    have hge : ¬ i < sz := by omega
    exact Or.inl ⟨0, s, i, rfl, by simp [ib_run, hge], by omega, by omega, hi⟩
  | succ N' ih =>
    intro i k s hN hi
    by_cases hlt : i < sz
    · cases hq : h s (p.index i) with
      | ok r =>
        obtain ⟨hp1, hp2⟩ := hprog _ _ _ hq
        have hmod : (i + r.2) % 2 ^ 32 = i + r.2 := Nat.mod_eq_of_lt (by omega)
        have hrun : ∀ k, ib_run h p sz (N' + 1) i k s = ib_run h p sz N' (i + r.2) (k + 1) r.1 := by
          intro k
          simp only [ib_run, if_pos hlt, hq, Res.bind, hmod]
        have happ : ∀ m, apply_packets h p (m + 1) i s = apply_packets h p m (i + r.2) r.1 := by
          intro m
          simp only [apply_packets, hq, Res.bind]
        rcases ih (i + r.2) (k + 1) r.1 (by omega) (by omega) with
          ⟨m, s', c, h1, h2, h3, h4, h5⟩ | ⟨m, s1, j, h1, h2, h3, h4⟩
        · refine Or.inl ⟨m + 1, s', c, by rw [happ]; exact h1, ?_, by omega, h4, h5⟩
          rw [hrun, h2]
          congr 3
          omega
        · refine Or.inr ⟨m + 1, s1, j, by rw [happ]; exact h1, h2, by omega, ?_⟩
          rw [hrun]
          exact h4
      | abort =>
        exact Or.inr ⟨0, s, i, rfl, hlt, by omega,
          Or.inl ⟨hq, by simp only [ib_run, if_pos hlt, hq, Res.bind]⟩⟩
      | fault =>
        exact Or.inr ⟨0, s, i, rfl, hlt, by omega,
          Or.inr (Or.inl ⟨hq, by simp only [ib_run, if_pos hlt, hq, Res.bind]⟩)⟩
      | fuel =>
        exact Or.inr ⟨0, s, i, rfl, hlt, by omega,
          Or.inr (Or.inr ⟨hq, by simp only [ib_run, if_pos hlt, hq, Res.bind]⟩)⟩
    · exact Or.inl ⟨0, s, i, rfl, by simp [ib_run, hlt], by omega, by omega, hi⟩

theorem eop_not_fuel (s : gfx_state_t) (packet : hostptr) :
    cp_handle_pm4_it_event_write_eop s packet ≠ .fuel := by
  unfold cp_handle_pm4_it_event_write_eop
  simp only []
  split_ifs
  · split
    · simp [Res.bind]
    · simp [Res.bind]
  · simp [Res.bind]

/-- With fuel left, the decoder runs out of it only inside an indirect buffer. -/
theorem fuel_only_in_ib (fuel : Nat) (ops : pm4_it) (s : gfx_state_t) (packet : hostptr)
    (hr : cp_handle_pm4 (fuel + 1) ops s packet = .fuel) :
    EXTRACT (ld32 s.mem packet 0) (31, 30) = 3 ∧
    EXTRACT (ld32 s.mem packet 0) (15, 8) = ops.PM4_IT_INDIRECT_BUFFER := by
  have ht := EXTRACT_lt (ld32 s.mem packet 0) 31 30
  rw [cp_handle_pm4_succ] at hr
  split_ifs at hr with h0 h1 h2
  · rw [type0_eq] at hr; cases hr
  · cases hr
  · cases hr
  · refine ⟨by norm_num at ht; omega, ?_⟩
    by_contra hne
    unfold cp_handle_pm4_type3 at hr
    simp only [PM4_TYPE3_HEADER_ITOP, if_neg hne] at hr
    split_ifs at hr
    · cases he : cp_handle_pm4_it_event_write_eop s packet with
      | ok a => rw [he] at hr; cases hr
      | abort => rw [he] at hr; cases hr
      | fault => rw [he] at hr; cases hr
      | fuel => exact eop_not_fuel s packet he
    · unfold cp_handle_pm4_it_set_config_reg at hr
      simp only [] at hr
      split_ifs at hr <;> cases hr
    · unfold cp_handle_pm4_it_set_context_reg at hr
      simp only [] at hr
      split_ifs at hr <;> cases hr
    · cases hr

/-- C19: every length the decoder returns lies between 1 and `0x4001`, so a
cursor below the 20-bit dword count moves strictly forward without 32-bit
wrap-around.  The drain loop over `count = word3 & 0xFFFFF` dwords never stops
for lack of iterations: either it returns after `m ≤ count` dispatches, applied
one after the other, with a final cursor in `[count, count + 0x4000]`; or the
dispatch it had reached after `m < count` returning dispatches did not return,
because it aborted, faulted, or was a nested indirect-buffer packet that
exhausted the nesting fuel. -/
theorem C19_decoder_progress (fuel : Nat) (ops : pm4_it) (s : gfx_state_t)
    (mapped_ib : hostptr) (word3 : Nat) :
    (∀ s0 q s' n, cp_handle_pm4 fuel ops s0 q = .ok (s', n) →
      1 ≤ n ∧ n ≤ 0x4001 ∧
      ∀ i, i < word3 &&& 0xFFFFF → (i + n) % 2 ^ 32 = i + n ∧ i < (i + n) % 2 ^ 32) ∧
    (ib_loop (fun s1 p => cp_handle_pm4 (fuel + 1) ops s1 p) mapped_ib
        (word3 &&& 0xFFFFF) (word3 &&& 0xFFFFF) 0 s
      = (ib_run (fun s1 p => cp_handle_pm4 (fuel + 1) ops s1 p) mapped_ib
          (word3 &&& 0xFFFFF) (word3 &&& 0xFFFFF) 0 0 s).bind fun r => .ok r.1) ∧
    ((∃ m s' c,
        ib_run (fun s1 p => cp_handle_pm4 (fuel + 1) ops s1 p) mapped_ib
          (word3 &&& 0xFFFFF) (word3 &&& 0xFFFFF) 0 0 s = .ok (s', c, m) ∧
        apply_packets (fun s1 p => cp_handle_pm4 (fuel + 1) ops s1 p) mapped_ib m 0 s
          = .ok (s', c) ∧
        m ≤ word3 &&& 0xFFFFF ∧ word3 &&& 0xFFFFF ≤ c ∧ c ≤ (word3 &&& 0xFFFFF) + 0x4000) ∨
     (∃ m s1 j,
        apply_packets (fun s1 p => cp_handle_pm4 (fuel + 1) ops s1 p) mapped_ib m 0 s
          = .ok (s1, j) ∧
        j < word3 &&& 0xFFFFF ∧ m < word3 &&& 0xFFFFF ∧
        ((cp_handle_pm4 (fuel + 1) ops s1 (mapped_ib.index j) = .abort ∧
          ib_run (fun s1 p => cp_handle_pm4 (fuel + 1) ops s1 p) mapped_ib
            (word3 &&& 0xFFFFF) (word3 &&& 0xFFFFF) 0 0 s = .abort) ∨
         (cp_handle_pm4 (fuel + 1) ops s1 (mapped_ib.index j) = .fault ∧
          ib_run (fun s1 p => cp_handle_pm4 (fuel + 1) ops s1 p) mapped_ib
            (word3 &&& 0xFFFFF) (word3 &&& 0xFFFFF) 0 0 s = .fault) ∨
         (EXTRACT (ld32 s1.mem (mapped_ib.index j) 0) (31, 30) = 3 ∧
          EXTRACT (ld32 s1.mem (mapped_ib.index j) 0) (15, 8) = ops.PM4_IT_INDIRECT_BUFFER ∧
          ib_run (fun s1 p => cp_handle_pm4 (fuel + 1) ops s1 p) mapped_ib
            (word3 &&& 0xFFFFF) (word3 &&& 0xFFFFF) 0 0 s = .fuel)))) := by
  have hsz : word3 &&& 0xFFFFF < 2 ^ 20 := Nat.and_lt_two_pow _ (by norm_num)
  refine ⟨fun s0 q s' n hr => ?_, ib_loop_eq_run _ _ _ _ _ _ _, ?_⟩
  · obtain ⟨-, h1, h2⟩ := cp_handle_pm4_ok ops fuel s0 q s' n hr
    refine ⟨h1, h2, fun i hi => ?_⟩
    have hmod : (i + n) % 2 ^ 32 = i + n := Nat.mod_eq_of_lt (by omega)
    exact ⟨hmod, by omega⟩
  · have hprog : ∀ s0 p r, (fun s1 p => cp_handle_pm4 (fuel + 1) ops s1 p) s0 p = .ok r →
        1 ≤ r.2 ∧ r.2 ≤ 0x4001 :=
      fun s0 p r hr => (cp_handle_pm4_ok ops (fuel + 1) s0 p r.1 r.2 hr).2
    rcases ib_run_outcome _ hprog mapped_ib (word3 &&& 0xFFFFF) (by omega)
        (word3 &&& 0xFFFFF) 0 0 s (by omega) (by omega) with
      ⟨m, s', c, h1, h2, h3, h4, h5⟩ | ⟨m, s1, j, h1, h2, h3, h4⟩
    · rw [Nat.zero_add] at h2
      exact Or.inl ⟨m, s', c, h2, h1, by omega, h4, h5⟩
    · refine Or.inr ⟨m, s1, j, h1, h2, by omega, ?_⟩
      rcases h4 with h4 | h4 | h4
      · exact Or.inl h4
      · exact Or.inr (Or.inl h4)
      · obtain ⟨ht, hop⟩ := fuel_only_in_ib fuel ops s1 _ h4.1
        exact Or.inr (Or.inr ⟨ht, hop, h4.2⟩)

/-- C12: for an indirect-buffer packet with a dword count of 1 the handler asks
the mapper for a view of 1 byte, not 4.  The drain loop nevertheless reads the
whole dword: changing only the byte at offset 3 of the sub-stream, outside the
requested view, turns a run that returns into one that aborts. -/
theorem C12_view_is_count_bytes :
    ib_count dev_ib_one pkt0 = 1 ∧
    (∃ s', cp_handle_pm4_it_indirect_buffer (fun s1 p => cp_handle_pm4 1 pm4_it_amd s1 p)
        dev_ib_one pkt0 = .ok s' ∧
      s'.log = [MapEvent.map 0 0x1010 1, MapEvent.unmap 0 (some ⟨0, 0x1010⟩) 0x1010 1]) ∧
    (∀ as a, ¬ (as = 0 ∧ a = 0x1010 + 3) → dev_ib_one_alt.mem as a = dev_ib_one.mem as a) ∧
    cp_handle_pm4_it_indirect_buffer (fun s1 p => cp_handle_pm4 1 pm4_it_amd s1 p)
      dev_ib_one_alt pkt0 = .abort := by
  refine ⟨by decide, ⟨_, rfl, by decide⟩, fun as a h => ?_, rfl⟩
  simp only [dev_ib_one_alt]
  rw [if_neg h]

/-- C13: ring 0 configured over `0x100` bytes holding one type-2 header, read
pointer 0, write pointer 4.  One iteration of the consumer loop leaves the
register file, the latest-event-type and guest memory unchanged, but the read
pointer is 1, not 4: the decoded length is added to it in dwords. -/
theorem C13_rptr_advances_by_dwords :
    (∃ s0, liverpool_gc_gfx_cp_set_ring_location (dev_with [0x80000000]) 0 0x1000 0x100
        = .ok s0 ∧ s0.cp_rb 0 = (dev_ring0 [0x80000000] 0).cp_rb 0) ∧
    ∃ s', liverpool_gc_gfx_cp_thread 1 pm4_it_amd (dev_ring0 [0x80000000] 4) = .ok s' ∧
      (s'.cp_rb 0).rptr = 1 ∧ (s'.cp_rb 0).rptr ≠ 4 ∧ (s'.cp_rb 0).wptr = 4 ∧
      s'.mmio = (dev_ring0 [0x80000000] 4).mmio ∧
      s'.vgt_event_initiator = (dev_ring0 [0x80000000] 4).vgt_event_initiator ∧
      s'.mem = (dev_ring0 [0x80000000] 4).mem :=
  ⟨⟨_, rfl, rfl⟩, _, rfl, by decide, by decide, by decide, rfl, rfl, rfl⟩

/-- C14: ring 0 holds a no-op packet followed by an event-write packet, 28 bytes
produced.  The first iteration decodes the no-op and leaves the read pointer at
1; the second iteration decodes dword `1 >> 2 = 0`, the no-op again, and not the
event write, whose event type `0x2F` and memory write never happen. -/
theorem C14_packet_decoded_twice :
    ∃ s1 s2, liverpool_gc_gfx_cp_thread 1 pm4_it_amd (dev_ring0 ring_nop_eop 28) = .ok s1 ∧
      liverpool_gc_gfx_cp_thread 1 pm4_it_amd s1 = .ok s2 ∧
      (s1.cp_rb 0).rptr = 1 ∧ ((s1.cp_rb 0).rptr >>> 2) % 2 ^ 32 = 0 ∧
      (s2.cp_rb 0).rptr = 2 ∧ s2.vgt_event_initiator = 0 ∧ s2.log = [] ∧
      ∃ s3, apply_packets (fun s p => cp_handle_pm4 1 pm4_it_amd s p) ⟨0, 0x1000⟩ 2 0
          (dev_ring0 ring_nop_eop 28) = .ok (s3, 7) ∧
        s3.vgt_event_initiator = 0x2F :=
  ⟨_, _, rfl, rfl, by decide, by decide, by decide, by decide, by decide, _, rfl, by decide⟩

theorem cp_handle_ringbuffer_ok (fuel : Nat) (ops : pm4_it) (s : gfx_state_t) (rb : gfx_ring_t)
    (s' : gfx_state_t) (n : Nat) (h : cp_handle_ringbuffer fuel ops s rb = .ok (s', n)) :
    keeps_rings s s' ∧ 1 ≤ n ∧ n ≤ 0x4001 := by
  unfold cp_handle_ringbuffer at h
  simp only [] at h
  split at h
  · cases h
  · exact cp_handle_pm4_ok ops fuel s _ s' n h

/-- Effect of servicing one ring once: an idle ring leaves the device as it is;
a draining ring has its read pointer advanced by the decoded length, and no
other ring descriptor changes. -/
theorem cp_thread_ring_effect (fuel : Nat) (ops : pm4_it) (s : gfx_state_t) (ix : Nat)
    (s' : gfx_state_t) (h : cp_thread_ring fuel ops s ix = .ok s') :
    (∀ j, j ≠ ix → s'.cp_rb j = s.cp_rb j) ∧
    (¬ (s.cp_rb ix).rptr < (s.cp_rb ix).wptr → s' = s) ∧
    ((s.cp_rb ix).rptr < (s.cp_rb ix).wptr →
      ∃ sa L, cp_handle_ringbuffer fuel ops s (s.cp_rb ix) = .ok (sa, L) ∧
        1 ≤ L ∧ L ≤ 0x4001 ∧
        s'.cp_rb ix = { s.cp_rb ix with rptr := ((s.cp_rb ix).rptr + L) % 2 ^ 32 }) := by
  unfold cp_thread_ring at h
  by_cases hlt : (s.cp_rb ix).rptr < (s.cp_rb ix).wptr
  · rw [if_pos hlt] at h
    obtain ⟨r, hr, hs⟩ := bind_eq_ok _ _ _ h
    obtain ⟨⟨-, hk⟩, h1, h2⟩ := cp_handle_ringbuffer_ok fuel ops s _ r.1 r.2 hr
    rw [← Res.ok.inj hs]
    refine ⟨fun j hj => ?_, fun hn => absurd hlt hn, fun _ => ⟨r.1, r.2, hr, h1, h2, ?_⟩⟩
    · simp [cp_rb_store, hj, hk]
    · simp [cp_rb_store, hk]
  · rw [if_neg hlt] at h
    rw [← Res.ok.inj h]
    exact ⟨fun j _ => rfl, fun _ => rfl, fun hp => absurd hp hlt⟩

theorem cp_handle_ringbuffer_eq (fuel : Nat) (ops : pm4_it) (s : gfx_state_t) (rb : gfx_ring_t)
    (r : gfx_state_t × Nat) (h : cp_handle_ringbuffer fuel ops s rb = .ok r) :
    ∃ mb, rb.mapped_base = some mb ∧
      cp_handle_pm4 fuel ops s (mb.index ((rb.rptr >>> 2) % 2 ^ 32)) = .ok r := by
  unfold cp_handle_ringbuffer at h
  simp only [] at h
  split at h
  · cases h
  · exact ⟨_, by assumption, h⟩

/-- Servicing one ring once, as an equation on the whole device: an idle ring
leaves it as it is; for a draining ring the result is the state the decoder
returned for the packet at its read pointer, with that ring's read pointer
advanced by the length the decoder returned. -/
theorem cp_thread_ring_eq (fuel : Nat) (ops : pm4_it) (s : gfx_state_t) (ix : Nat)
    (s' : gfx_state_t) (h : cp_thread_ring fuel ops s ix = .ok s') :
    (¬ (s.cp_rb ix).rptr < (s.cp_rb ix).wptr ∧ s' = s) ∨
    ((s.cp_rb ix).rptr < (s.cp_rb ix).wptr ∧
      ∃ sa L, cp_handle_ringbuffer fuel ops s (s.cp_rb ix) = .ok (sa, L) ∧
        1 ≤ L ∧ L ≤ 0x4001 ∧ sa.cp_rb = s.cp_rb ∧
        s' = cp_rb_store sa ix
          { s.cp_rb ix with rptr := ((s.cp_rb ix).rptr + L) % 2 ^ 32 }) := by
  unfold cp_thread_ring at h
  by_cases hlt : (s.cp_rb ix).rptr < (s.cp_rb ix).wptr
  · rw [if_pos hlt] at h
    obtain ⟨r, hr, hs⟩ := bind_eq_ok _ _ _ h
    obtain ⟨⟨-, hk⟩, h1, h2⟩ := cp_handle_ringbuffer_ok fuel ops s _ r.1 r.2 hr
    refine Or.inr ⟨hlt, r.1, r.2, hr, h1, h2, hk, ?_⟩
    rw [← Res.ok.inj hs, hk]
  · rw [if_neg hlt] at h
    exact Or.inl ⟨hlt, (Res.ok.inj h).symm⟩

theorem rptr_step (rb : gfx_ring_t) (L : Nat) :
    ({ rb with rptr := (rb.rptr + L) % 2 ^ 32 } : gfx_ring_t).wptr = rb.wptr ∧
    (rb.rptr + L ≤ rb.wptr →
      ({ rb with rptr := (rb.rptr + L) % 2 ^ 32 } : gfx_ring_t).rptr
        ≤ ({ rb with rptr := (rb.rptr + L) % 2 ^ 32 } : gfx_ring_t).wptr) ∧
    (rb.rptr + L < 2 ^ 32 →
      (({ rb with rptr := (rb.rptr + L) % 2 ^ 32 } : gfx_ring_t).rptr
        ≤ ({ rb with rptr := (rb.rptr + L) % 2 ^ 32 } : gfx_ring_t).wptr ↔
       rb.rptr + L ≤ rb.wptr)) := by
  refine ⟨rfl, fun hle => ?_, fun hlt => ?_⟩
  · show (rb.rptr + L) % 2 ^ 32 ≤ rb.wptr
    exact le_trans (Nat.mod_le _ _) hle
  · show (rb.rptr + L) % 2 ^ 32 ≤ rb.wptr ↔ _
    rw [Nat.mod_eq_of_lt hlt]

/-- C15 (as amended): when one iteration of the consumer loop returns, it went
through a state `s1` between the two rings.  Ring 0 is serviced in the entry
state `s`, ring 1 in `s1`.  A ring that is not draining (`rptr = wptr`, or
`rptr ≥ wptr`) leaves the device as it is.  For a draining ring the decoder is
run on the packet at dword `rptr >> 2` of its view, returns a state and a length `L` with
`1 ≤ L ≤ 0x4001`, and the device becomes that state with only this ring's `rptr`
changed, to `(rptr + L) mod 2^32`.  So each ring keeps its write pointer,
`rptr ≤ wptr` holds afterwards whenever `rptr + L ≤ wptr`, and when the sum does
not wrap it holds afterwards exactly when `rptr + L ≤ wptr`. -/
theorem C15_consumer_step (fuel : Nat) (ops : pm4_it) (s s' : gfx_state_t)
    (hr : liverpool_gc_gfx_cp_thread fuel ops s = .ok s') :
    ∃ s1,
      ((¬ (s.cp_rb 0).rptr < (s.cp_rb 0).wptr ∧ s1 = s ∧ s'.cp_rb 0 = s.cp_rb 0) ∨
       ((s.cp_rb 0).rptr < (s.cp_rb 0).wptr ∧
        ∃ sa L, cp_handle_ringbuffer fuel ops s (s.cp_rb 0) = .ok (sa, L) ∧
          (∃ mb, (s.cp_rb 0).mapped_base = some mb ∧
            cp_handle_pm4 fuel ops s (mb.index (((s.cp_rb 0).rptr >>> 2) % 2 ^ 32))
              = .ok (sa, L)) ∧
          1 ≤ L ∧ L ≤ 0x4001 ∧
          s1 = cp_rb_store sa 0
            { s.cp_rb 0 with rptr := ((s.cp_rb 0).rptr + L) % 2 ^ 32 } ∧
          s'.cp_rb 0 = { s.cp_rb 0 with rptr := ((s.cp_rb 0).rptr + L) % 2 ^ 32 } ∧
          ((s.cp_rb 0).rptr + L ≤ (s.cp_rb 0).wptr →
            (s'.cp_rb 0).rptr ≤ (s'.cp_rb 0).wptr) ∧
          ((s.cp_rb 0).rptr + L < 2 ^ 32 →
            ((s'.cp_rb 0).rptr ≤ (s'.cp_rb 0).wptr ↔
              (s.cp_rb 0).rptr + L ≤ (s.cp_rb 0).wptr)))) ∧
      ((¬ (s.cp_rb 1).rptr < (s.cp_rb 1).wptr ∧ s' = s1 ∧ s'.cp_rb 1 = s.cp_rb 1) ∨
       ((s.cp_rb 1).rptr < (s.cp_rb 1).wptr ∧
        ∃ sb M, cp_handle_ringbuffer fuel ops s1 (s.cp_rb 1) = .ok (sb, M) ∧
          (∃ mb, (s.cp_rb 1).mapped_base = some mb ∧
            cp_handle_pm4 fuel ops s1 (mb.index (((s.cp_rb 1).rptr >>> 2) % 2 ^ 32))
              = .ok (sb, M)) ∧
          1 ≤ M ∧ M ≤ 0x4001 ∧
          s' = cp_rb_store sb 1
            { s.cp_rb 1 with rptr := ((s.cp_rb 1).rptr + M) % 2 ^ 32 } ∧
          s'.cp_rb 1 = { s.cp_rb 1 with rptr := ((s.cp_rb 1).rptr + M) % 2 ^ 32 } ∧
          ((s.cp_rb 1).rptr + M ≤ (s.cp_rb 1).wptr →
            (s'.cp_rb 1).rptr ≤ (s'.cp_rb 1).wptr) ∧
          ((s.cp_rb 1).rptr + M < 2 ^ 32 →
            ((s'.cp_rb 1).rptr ≤ (s'.cp_rb 1).wptr ↔
              (s.cp_rb 1).rptr + M ≤ (s.cp_rb 1).wptr)))) ∧
      (s'.cp_rb 0).wptr = (s.cp_rb 0).wptr ∧ (s'.cp_rb 1).wptr = (s.cp_rb 1).wptr := by
  unfold liverpool_gc_gfx_cp_thread at hr
  obtain ⟨s1, h0, h1⟩ := bind_eq_ok _ _ _ hr
  have a := cp_thread_ring_eq fuel ops s 0 s1 h0
  have b := cp_thread_ring_eq fuel ops s1 1 s' h1
  -- ring 1 is the same in `s1` as in `s`
  have e1 : s1.cp_rb 1 = s.cp_rb 1 := by
    rcases a with ⟨-, rfl⟩ | ⟨-, sa, L, -, -, -, hk, rfl⟩
    · rfl
    · simp [cp_rb_store, hk]
  -- ring 0 is the same in `s'` as in `s1`
  have e0 : s'.cp_rb 0 = s1.cp_rb 0 := by
    rcases b with ⟨-, rfl⟩ | ⟨-, sb, M, -, -, -, hk, rfl⟩
    · rfl
    · simp [cp_rb_store, hk]
  rw [e1] at b
  have r0 : (¬ (s.cp_rb 0).rptr < (s.cp_rb 0).wptr ∧ s1 = s ∧ s'.cp_rb 0 = s.cp_rb 0) ∨
       ((s.cp_rb 0).rptr < (s.cp_rb 0).wptr ∧
        ∃ sa L, cp_handle_ringbuffer fuel ops s (s.cp_rb 0) = .ok (sa, L) ∧
          (∃ mb, (s.cp_rb 0).mapped_base = some mb ∧
            cp_handle_pm4 fuel ops s (mb.index (((s.cp_rb 0).rptr >>> 2) % 2 ^ 32))
              = .ok (sa, L)) ∧
          1 ≤ L ∧ L ≤ 0x4001 ∧
          s1 = cp_rb_store sa 0
            { s.cp_rb 0 with rptr := ((s.cp_rb 0).rptr + L) % 2 ^ 32 } ∧
          s'.cp_rb 0 = { s.cp_rb 0 with rptr := ((s.cp_rb 0).rptr + L) % 2 ^ 32 } ∧
          ((s.cp_rb 0).rptr + L ≤ (s.cp_rb 0).wptr →
            (s'.cp_rb 0).rptr ≤ (s'.cp_rb 0).wptr) ∧
          ((s.cp_rb 0).rptr + L < 2 ^ 32 →
            ((s'.cp_rb 0).rptr ≤ (s'.cp_rb 0).wptr ↔
              (s.cp_rb 0).rptr + L ≤ (s.cp_rb 0).wptr))) := by
    rcases a with ⟨hn, hs⟩ | ⟨hlt, sa, L, hd, l1, l2, hk, hs⟩
    · exact Or.inl ⟨hn, hs, by rw [e0, hs]⟩
    · have e : s'.cp_rb 0 = { s.cp_rb 0 with rptr := ((s.cp_rb 0).rptr + L) % 2 ^ 32 } := by
        rw [e0, hs]; simp [cp_rb_store]
      obtain ⟨-, k2, k3⟩ := rptr_step (s.cp_rb 0) L
      refine Or.inr ⟨hlt, sa, L, hd, cp_handle_ringbuffer_eq fuel ops s _ _ hd, l1, l2, hs, e,
        ?_, ?_⟩
      · rw [e]; exact k2
      · rw [e]; exact k3
  have r1 : (¬ (s.cp_rb 1).rptr < (s.cp_rb 1).wptr ∧ s' = s1 ∧ s'.cp_rb 1 = s.cp_rb 1) ∨
       ((s.cp_rb 1).rptr < (s.cp_rb 1).wptr ∧
        ∃ sb M, cp_handle_ringbuffer fuel ops s1 (s.cp_rb 1) = .ok (sb, M) ∧
          (∃ mb, (s.cp_rb 1).mapped_base = some mb ∧
            cp_handle_pm4 fuel ops s1 (mb.index (((s.cp_rb 1).rptr >>> 2) % 2 ^ 32))
              = .ok (sb, M)) ∧
          1 ≤ M ∧ M ≤ 0x4001 ∧
          s' = cp_rb_store sb 1
            { s.cp_rb 1 with rptr := ((s.cp_rb 1).rptr + M) % 2 ^ 32 } ∧
          s'.cp_rb 1 = { s.cp_rb 1 with rptr := ((s.cp_rb 1).rptr + M) % 2 ^ 32 } ∧
          ((s.cp_rb 1).rptr + M ≤ (s.cp_rb 1).wptr →
            (s'.cp_rb 1).rptr ≤ (s'.cp_rb 1).wptr) ∧
          ((s.cp_rb 1).rptr + M < 2 ^ 32 →
            ((s'.cp_rb 1).rptr ≤ (s'.cp_rb 1).wptr ↔
              (s.cp_rb 1).rptr + M ≤ (s.cp_rb 1).wptr))) := by
    rcases b with ⟨hn, hs⟩ | ⟨hlt, sb, M, hd, l1, l2, hk, hs⟩
    · exact Or.inl ⟨hn, hs, by rw [hs, e1]⟩
    · have e : s'.cp_rb 1 = { s.cp_rb 1 with rptr := ((s.cp_rb 1).rptr + M) % 2 ^ 32 } := by
        rw [hs]; simp [cp_rb_store]
      obtain ⟨-, k2, k3⟩ := rptr_step (s.cp_rb 1) M
      refine Or.inr ⟨hlt, sb, M, hd, cp_handle_ringbuffer_eq fuel ops s1 _ _ hd, l1, l2, hs, e,
        ?_, ?_⟩
      · rw [e]; exact k2
      · rw [e]; exact k3
  refine ⟨s1, r0, r1, ?_, ?_⟩
  · rcases r0 with ⟨-, -, e⟩ | ⟨-, sa, L, -, -, -, -, -, e, -⟩
    · rw [e]
    · rw [e]
  · rcases r1 with ⟨-, -, e⟩ | ⟨-, sb, M, -, -, -, -, -, e, -⟩
    · rw [e]
    · rw [e]

theorem C15_consumer_step_witness :
    ∃ s', liverpool_gc_gfx_cp_thread 1 pm4_it_amd (dev_ring0 [0x80000000] 4) = .ok s' ∧
      (s'.cp_rb 0).wptr = 4 ∧ (s'.cp_rb 0).rptr ≤ (s'.cp_rb 0).wptr := by
  obtain ⟨s1, -, -, h, -⟩ :=
    C15_consumer_step 1 pm4_it_amd (dev_ring0 [0x80000000] 4) _ rfl
  exact ⟨_, rfl, h, by decide⟩

/-- C15 (as stated) fails: ring 0 holds a type-0 header that declares 5 dwords,
`rptr = 0 ≤ wptr = 4`; one iteration of the consumer loop leaves `wptr = 4` and
`rptr = 5`. -/
theorem C15_invariant_broken :
    (dev_ring0 [0x00030000] 4).cp_rb 0 = ⟨0x1000, 0x100, some ⟨0, 0x1000⟩, 0x100, 0, 4⟩ ∧
    ∃ s', liverpool_gc_gfx_cp_thread 1 pm4_it_amd (dev_ring0 [0x00030000] 4) = .ok s' ∧
      (s'.cp_rb 0).wptr = 4 ∧ (s'.cp_rb 0).rptr = 5 ∧
      ¬ (s'.cp_rb 0).rptr ≤ (s'.cp_rb 0).wptr :=
  ⟨rfl, _, rfl, by decide, by decide, by decide⟩

/-- C16: a header whose bits[31:30] equal 0 makes `cp_handle_pm4` return
`c + 2` with the same device state, whatever the base register index and the
count: register file, latest-event-type, ring descriptors, guest memory and
mapper log are all untouched. -/
theorem C16_type0_no_mutation (fuel : Nat) (ops : pm4_it) (s : gfx_state_t) (packet : hostptr)
    (htype : EXTRACT (ld32 s.mem packet 0) (31, 30) = 0) :
    cp_handle_pm4 (fuel + 1) ops s packet
      = .ok (s, EXTRACT (ld32 s.mem packet 0) (29, 16) + 2) := by
  rw [cp_handle_pm4_succ, if_pos htype, type0_eq]

theorem C16_type0_no_mutation_witness :
    EXTRACT (ld32 (dev_with [0x00032010, 1, 2, 3, 4]).mem pkt0 0) (31, 30) = 0 ∧
    cp_handle_pm4 1 pm4_it_amd (dev_with [0x00032010, 1, 2, 3, 4]) pkt0
      = .ok (dev_with [0x00032010, 1, 2, 3, 4], 5) :=
  ⟨by decide, C16_type0_no_mutation 0 pm4_it_amd (dev_with [0x00032010, 1, 2, 3, 4]) pkt0
    (by decide)⟩

/-- A store that fits: it returns, writes the four bytes inside the buffer,
advances the address register by 4 modulo `2^32` and changes no other register
and no other buffer. -/
theorem ucode_store_fits (s : LiverpoolGCState) (data : ucode_buf) (reg value : Nat)
    (hfit : s.mmio reg + 4 ≤ 0x8000) :
    ∃ s', ucode_store s data reg value = .ok s' ∧
      s'.mmio reg = (s.mmio reg + 4) % 2 ^ 32 ∧ (∀ j, j ≠ reg → s'.mmio j = s.mmio j) ∧
      (∀ b, b ≠ data → s'.ucode b = s.ucode b) ∧
      (∀ a, s'.ucode data a ≠ s.ucode data a → s.mmio reg ≤ a ∧ a < 0x8000) := by
  have h1 : s.mmio reg < 0x8000 := by omega
  refine ⟨{ s with
      ucode := fun b => if b = data then stl_le_p (s.ucode data) (s.mmio reg) value
        else s.ucode b
      mmio := fun j => if j = reg then (s.mmio reg + 4) % 2 ^ 32 else s.mmio j },
    by simp only [ucode_store, h1, hfit, not_true_eq_false, if_false], ?_, ?_, ?_, ?_⟩
  · simp
  · intro j hj; simp [hj]
  · intro b hb; simp [hb]
  · intro a ha
    simp only [if_true, stl_le_p] at ha
    by_cases hin : s.mmio reg ≤ a ∧ a < s.mmio reg + 4
    · omega
    · rw [if_neg hin] at ha
      exact absurd rfl ha

/-- C20: with the address register at `0x7FFD` the guard `offset < size` of
`liverpool_gc_ucode_load` passes, yet `offset + 4 = 0x8001` exceeds the
`0x8000`-byte buffer: the call neither aborts nor returns a state whose store
stayed inside the buffer, it writes past the end of the array.  The
`mmCP_ME_RAM_DATA` case of `liverpool_gc_mmio_write` has the same guard and
does the same. -/
theorem C20_store_overruns_buffer (regs : gc_mmio_regs) (value : Nat) :
    (gc_dev 0x7FFD).mmio regs.mmCP_PFP_UCODE_ADDR < 0x8000 ∧
    ¬ (gc_dev 0x7FFD).mmio regs.mmCP_PFP_UCODE_ADDR + 4 ≤ 0x8000 ∧
    liverpool_gc_ucode_load regs (gc_dev 0x7FFD) regs.mmCP_PFP_UCODE_ADDR value = .fault ∧
    liverpool_gc_mmio_write_me_ram regs (gc_dev 0x7FFD) value = .fault := by
  refine ⟨by simp [gc_dev], by simp [gc_dev], ?_, ?_⟩
  · simp [liverpool_gc_ucode_load, ucode_select, ucode_store, gc_dev]
  · simp [liverpool_gc_mmio_write_me_ram, ucode_store, gc_dev]

/-- C18: a set-config-register packet that returns changed no register-file
entry outside `[0x2000 + offset, 0x2000 + offset + word_count)`, which lies
inside `[0x2000, 0x3000)`; a set-context-register packet none outside
`[0xA000 + offset, 0xA000 + offset + word_count)`, inside `[0xA000, 0xA400)`.
The latest-event-type, guest memory, the rings and the mapper log are unchanged,
and with `word_count = 0` the whole device is.  Each packet does return when
`offset + word_count` is within the window span. -/
theorem C18_writes_stay_in_window (fuel : Nat) (ops : pm4_it) (s : gfx_state_t)
    (packet : hostptr) (htype : EXTRACT (ld32 s.mem packet 0) (31, 30) = 3) :
    (EXTRACT (ld32 s.mem packet 0) (15, 8) = ops.PM4_IT_SET_CONFIG_REG →
      ((ld32 s.mem packet 1 &&& 0xFFFF) + EXTRACT (ld32 s.mem packet 0) (29, 16) ≤ 0x1000 →
        ∃ s', cp_handle_pm4 (fuel + 1) ops s packet
          = .ok (s', EXTRACT (ld32 s.mem packet 0) (29, 16) + 2)) ∧
      ∀ s' n, cp_handle_pm4 (fuel + 1) ops s packet = .ok (s', n) →
        (∀ j, s'.mmio j ≠ s.mmio j →
          0x2000 + (ld32 s.mem packet 1 &&& 0xFFFF) ≤ j ∧
          j < 0x2000 + (ld32 s.mem packet 1 &&& 0xFFFF) + EXTRACT (ld32 s.mem packet 0) (29, 16) ∧
          0x2000 ≤ j ∧ j < 0x3000) ∧
        s'.vgt_event_initiator = s.vgt_event_initiator ∧ s'.mem = s.mem ∧
        s'.cp_rb = s.cp_rb ∧ s'.log = s.log ∧
        (EXTRACT (ld32 s.mem packet 0) (29, 16) = 0 → s' = s)) ∧
    (EXTRACT (ld32 s.mem packet 0) (15, 8) = ops.PM4_IT_SET_CONTEXT_REG →
      ((ld32 s.mem packet 1 &&& 0xFFFF) + EXTRACT (ld32 s.mem packet 0) (29, 16) ≤ 0x400 →
        ∃ s', cp_handle_pm4 (fuel + 1) ops s packet
          = .ok (s', EXTRACT (ld32 s.mem packet 0) (29, 16) + 2)) ∧
      ∀ s' n, cp_handle_pm4 (fuel + 1) ops s packet = .ok (s', n) →
        (∀ j, s'.mmio j ≠ s.mmio j →
          0xA000 + (ld32 s.mem packet 1 &&& 0xFFFF) ≤ j ∧
          j < 0xA000 + (ld32 s.mem packet 1 &&& 0xFFFF) + EXTRACT (ld32 s.mem packet 0) (29, 16) ∧
          0xA000 ≤ j ∧ j < 0xA400) ∧
        s'.vgt_event_initiator = s.vgt_event_initiator ∧ s'.mem = s.mem ∧
        s'.cp_rb = s.cp_rb ∧ s'.log = s.log ∧
        (EXTRACT (ld32 s.mem packet 0) (29, 16) = 0 → s' = s)) := by
  have hc := EXTRACT_lt (ld32 s.mem packet 0) 29 16
  have ho := and_ffff_lt (ld32 s.mem packet 1)
  norm_num at hc ho
  have hd : cp_handle_pm4 (fuel + 1) ops s packet
      = cp_handle_pm4_type3 ops (fun s1 p => cp_handle_pm4 fuel ops s1 p) s packet := by
    rw [cp_handle_pm4_succ, htype]; rfl
  have e1 : (EXTRACT (ld32 s.mem packet 0) (29, 16) + 1 + 2 ^ 32 - 1) % 2 ^ 32
      = EXTRACT (ld32 s.mem packet 0) (29, 16) := by omega
  have e2 : ((ld32 s.mem packet 1 &&& 0xFFFF) + EXTRACT (ld32 s.mem packet 0) (29, 16)) % 2 ^ 32
      = (ld32 s.mem packet 1 &&& 0xFFFF) + EXTRACT (ld32 s.mem packet 0) (29, 16) := by omega
  have key : ∀ (base : Nat) (s' : gfx_state_t),
      s' = (List.range (EXTRACT (ld32 s.mem packet 0) (29, 16))).foldl
        (fun st i => mmio_store st (base + (ld32 s.mem packet 1 &&& 0xFFFF))
          (ld32 st.mem packet ((2 + i) % 2 ^ 32))) s →
      (∀ j, s'.mmio j ≠ s.mmio j →
        j = base + (ld32 s.mem packet 1 &&& 0xFFFF) ∧
        1 ≤ EXTRACT (ld32 s.mem packet 0) (29, 16)) ∧
      s'.vgt_event_initiator = s.vgt_event_initiator ∧ s'.mem = s.mem ∧
      s'.cp_rb = s.cp_rb ∧ s'.log = s.log ∧
      (EXTRACT (ld32 s.mem packet 0) (29, 16) = 0 → s' = s) := by
    intro base s' hs'
    obtain ⟨h1, -, h3, h4, h5, h6, -⟩ := set_reg_loop_effect packet
      (base + (ld32 s.mem packet 1 &&& 0xFFFF)) (EXTRACT (ld32 s.mem packet 0) (29, 16)) s
    rw [← hs'] at h1 h3 h4 h5 h6
    have hz : EXTRACT (ld32 s.mem packet 0) (29, 16) = 0 → s' = s := by
      intro h0
      rw [hs', h0]
      rfl
    refine ⟨fun j hj => ?_, h3, h1, h4, h5, hz⟩
    constructor
    · by_contra hne
      exact hj (h6 j hne)
    · by_contra hlt
      have h0 : EXTRACT (ld32 s.mem packet 0) (29, 16) = 0 := by omega
      rw [hz h0] at hj
      exact hj rfl
  refine ⟨fun hop => ?_, fun hop => ?_⟩
  · rw [hd, type3_set_config ops _ s packet hop]
    unfold cp_handle_pm4_it_set_config_reg
    simp only [e1, e2]
    refine ⟨fun hle => ⟨_, by rw [if_neg (not_not.mpr hle)]; rfl⟩, fun s' n hr => ?_⟩
    split_ifs at hr with hab
    · simp only [Res.bind] at hr
      obtain ⟨k1, k2, k3, k4, k5, k6⟩ := key 0x2000 s' (Prod.mk.inj (Res.ok.inj hr)).1.symm
      refine ⟨fun j hj => ?_, k2, k3, k4, k5, k6⟩
      obtain ⟨a, b⟩ := k1 j hj
      omega
    · cases hr
  · rw [hd, type3_set_context ops _ s packet hop]
    unfold cp_handle_pm4_it_set_context_reg
    simp only [e1, e2]
    refine ⟨fun hle => ⟨_, by rw [if_neg (not_not.mpr hle)]; rfl⟩, fun s' n hr => ?_⟩
    split_ifs at hr with hab
    · simp only [Res.bind] at hr
      obtain ⟨k1, k2, k3, k4, k5, k6⟩ := key 0xA000 s' (Prod.mk.inj (Res.ok.inj hr)).1.symm
      refine ⟨fun j hj => ?_, k2, k3, k4, k5, k6⟩
      obtain ⟨a, b⟩ := k1 j hj
      omega
    · cases hr

theorem C18_writes_stay_in_window_witness :
    EXTRACT (ld32 dev_config.mem pkt0 0) (31, 30) = 3 ∧
    ∃ s', cp_handle_pm4 1 pm4_it_amd dev_config pkt0 = .ok (s', 4) ∧
      ∀ j, s'.mmio j ≠ dev_config.mmio j → 0x2010 ≤ j ∧ j < 0x2012 :=
  ⟨by decide, _, rfl, fun j hj =>
    ⟨((((C18_writes_stay_in_window 0 pm4_it_amd dev_config pkt0 (by decide)).1 (by decide)).2
        _ 4 rfl).1 j hj).1,
     ((((C18_writes_stay_in_window 0 pm4_it_amd dev_config pkt0 (by decide)).1 (by decide)).2
        _ 4 rfl).1 j hj).2.1⟩⟩

theorem type3_eq (ops : pm4_it) (h : gfx_state_t → hostptr → Res (gfx_state_t × Nat))
    (s : gfx_state_t) (packet : hostptr) :
    cp_handle_pm4_type3 ops h s packet =
      (if EXTRACT (ld32 s.mem packet 0) (15, 8) = ops.PM4_IT_INDIRECT_BUFFER then
        cp_handle_pm4_it_indirect_buffer h s packet
      else if EXTRACT (ld32 s.mem packet 0) (15, 8) = ops.PM4_IT_EVENT_WRITE_EOP then
        cp_handle_pm4_it_event_write_eop s packet
      else if EXTRACT (ld32 s.mem packet 0) (15, 8) = ops.PM4_IT_SET_CONFIG_REG then
        cp_handle_pm4_it_set_config_reg s packet (EXTRACT (ld32 s.mem packet 0) (29, 16) + 1)
      else if EXTRACT (ld32 s.mem packet 0) (15, 8) = ops.PM4_IT_SET_CONTEXT_REG then
        cp_handle_pm4_it_set_context_reg s packet (EXTRACT (ld32 s.mem packet 0) (29, 16) + 1)
      else .ok s).bind fun s1 => .ok (s1, EXTRACT (ld32 s.mem packet 0) (29, 16) + 2) := by
  obtain ⟨c1, -, -⟩ := count_field (ld32 s.mem packet 0)
  have c2 : (EXTRACT (ld32 s.mem packet 0) (29, 16) + 1 + 1) % 2 ^ 32
      = EXTRACT (ld32 s.mem packet 0) (29, 16) + 2 := by
    have := EXTRACT_lt (ld32 s.mem packet 0) 29 16
    omega
  unfold cp_handle_pm4_type3
  simp only [PM4_TYPE3_HEADER_ITOP, c1, c2]

theorem eop_returns (s : gfx_state_t) (packet : hostptr)
    (hmap : ∀ len, s.gart.map 0 (eop_addr s packet) len ≠ none) :
    ∃ s', cp_handle_pm4_it_event_write_eop s packet = .ok s' := by
  unfold cp_handle_pm4_it_event_write_eop
  simp only [eop_addr_eq]
  split_ifs with hsz
  · cases hm : s.gart.map 0 (eop_addr s packet)
        (eop_size_data (EXTRACT (ld32 s.mem packet 3) (31, 29)) (ld32 s.mem packet 4)
          (ld32 s.mem packet 5)).1 with
    | none => exact absurd hm (hmap _)
    | some l => exact ⟨_, rfl⟩
  · exact ⟨_, rfl⟩

/-- A packet that is not of type 1, is not an indirect buffer, respects the
register-block bound of its window and, for an event write, gets its view from
the mapper, is dispatched to completion: `cp_handle_pm4` returns. -/
theorem cp_handle_pm4_returns (fuel : Nat) (ops : pm4_it) (s : gfx_state_t) (packet : hostptr)
    (h1 : EXTRACT (ld32 s.mem packet 0) (31, 30) ≠ 1)
    (hib : EXTRACT (ld32 s.mem packet 0) (31, 30) = 3 →
      EXTRACT (ld32 s.mem packet 0) (15, 8) ≠ ops.PM4_IT_INDIRECT_BUFFER)
    (hcfg : EXTRACT (ld32 s.mem packet 0) (31, 30) = 3 →
      EXTRACT (ld32 s.mem packet 0) (15, 8) = ops.PM4_IT_SET_CONFIG_REG →
      (ld32 s.mem packet 1 &&& 0xFFFF) + EXTRACT (ld32 s.mem packet 0) (29, 16) ≤ 0x1000)
    (hctx : EXTRACT (ld32 s.mem packet 0) (31, 30) = 3 →
      EXTRACT (ld32 s.mem packet 0) (15, 8) = ops.PM4_IT_SET_CONTEXT_REG →
      (ld32 s.mem packet 1 &&& 0xFFFF) + EXTRACT (ld32 s.mem packet 0) (29, 16) ≤ 0x400)
    (heop : EXTRACT (ld32 s.mem packet 0) (31, 30) = 3 →
      EXTRACT (ld32 s.mem packet 0) (15, 8) = ops.PM4_IT_EVENT_WRITE_EOP →
      ∀ len, s.gart.map 0 (eop_addr s packet) len ≠ none) :
    ∃ r, cp_handle_pm4 (fuel + 1) ops s packet = .ok r := by
  have ht := EXTRACT_lt (ld32 s.mem packet 0) 31 30
  have hc : EXTRACT (ld32 s.mem packet 0) (29, 16) < 2 ^ 14 := by
    have := EXTRACT_lt (ld32 s.mem packet 0) 29 16
    norm_num at this ⊢
    exact this
  rw [cp_handle_pm4_succ]
  split_ifs with t0 t2
  · exact ⟨_, type0_eq s packet⟩
  · exact ⟨_, rfl⟩
  · have t3 : EXTRACT (ld32 s.mem packet 0) (31, 30) = 3 := by norm_num at ht; omega
    rw [type3_eq, if_neg (hib t3)]
    split_ifs with o2 o3 o4
    · obtain ⟨s', hs'⟩ := eop_returns s packet (heop t3 o2)
      rw [hs']; exact ⟨_, rfl⟩
    · have := (set_config_abort_iff s packet _ hc).not.mpr (by have := hcfg t3 o3; omega)
      cases hr : cp_handle_pm4_it_set_config_reg s packet
          (EXTRACT (ld32 s.mem packet 0) (29, 16) + 1) with
      | ok a => exact ⟨_, rfl⟩
      | abort => exact absurd hr this
      | fault =>
        unfold cp_handle_pm4_it_set_config_reg at hr
        simp only [] at hr
        split_ifs at hr
      | fuel =>
        unfold cp_handle_pm4_it_set_config_reg at hr
        simp only [] at hr
        split_ifs at hr
    · have := (set_context_abort_iff s packet _ hc).not.mpr (by have := hctx t3 o4; omega)
      cases hr : cp_handle_pm4_it_set_context_reg s packet
          (EXTRACT (ld32 s.mem packet 0) (29, 16) + 1) with
      | ok a => exact ⟨_, rfl⟩
      | abort => exact absurd hr this
      | fault =>
        unfold cp_handle_pm4_it_set_context_reg at hr
        simp only [] at hr
        split_ifs at hr
      | fuel =>
        unfold cp_handle_pm4_it_set_context_reg at hr
        simp only [] at hr
        split_ifs at hr
    · exact ⟨_, rfl⟩

theorem C19_decoder_progress_witness :
    ∃ s', cp_handle_pm4 1 pm4_it_amd dev_config pkt0 = .ok (s', 4) ∧
      1 ≤ 4 ∧ 4 ≤ 0x4001 ∧ (3 + 4) % 2 ^ 32 = 3 + 4 :=
  ⟨_, rfl,
    ((C19_decoder_progress 1 pm4_it_amd dev_ib ⟨0, 0x1010⟩ 5).1 dev_config pkt0 _ 4 rfl).1,
    ((C19_decoder_progress 1 pm4_it_amd dev_ib ⟨0, 0x1010⟩ 5).1 dev_config pkt0 _ 4 rfl).2.1,
    (((C19_decoder_progress 1 pm4_it_amd dev_ib ⟨0, 0x1010⟩ 5).1 dev_config pkt0 _ 4 rfl).2.2
      3 (by decide)).1⟩

end Orbital
